import Mathlib

/-!
Verification of the document-archive file handling subsystem:
filename generation, upload/storage path construction, collision
suffixing, PDF upload validation, soft delete and file relocation
(apps/archive/utils/file_operations.py, apps/archive/constants.py,
apps/archive/models.py, apps/archive/services/document_service.py,
apps/archive/signals.py).

Strings are modelled as Lean `String` (lists of characters); the
character classes of the Python regexes (`\w`, `\s`) are modelled on
their ASCII fragment, which covers every string the system builds.
Machine integers do not occur (Python integers are unbounded).
-/

namespace Archive

/-! ### Decimal rendering of naturals (Python str/format of an int) -/

/-- The character for a single decimal digit (codepoint 48 + d). -/
def decDigit (d : Nat) : Char := Char.ofNat (48 + d)

/-- Fuel-driven decimal rendering; fuel `n + 1` always suffices. -/
def natToDecAux : Nat → Nat → List Char
  | 0, _ => []
  | fuel + 1, n => if n < 10 then [decDigit n] else natToDecAux fuel (n / 10) ++ [decDigit (n % 10)]

/-- Decimal digits of `n`, most significant first: Python `str(n)` / `f-string` of an int. -/
def natToDec (n : Nat) : List Char := natToDecAux (n + 1) n

theorem natToDecAux_fuel (f1 : Nat) : ∀ f2 n, n < f1 → n < f2 → natToDecAux f1 n = natToDecAux f2 n := by
  induction f1 with
  | zero => intro f2 n h1 _; omega
  | succ f ih =>
    intro f2 n h1 h2
    cases f2 with
    | zero => omega
    | succ g =>
      by_cases hn : n < 10
      · simp [natToDecAux, hn]
      · have hdiv : n / 10 < n := Nat.div_lt_self (by omega) (by omega)
        simp only [natToDecAux, hn, if_false]
        rw [ih g (n / 10) (by omega) (by omega)]

theorem natToDec_eq (n : Nat) :
    natToDec n = if n < 10 then [decDigit n] else natToDec (n / 10) ++ [decDigit (n % 10)] := by
  have h0 : natToDec n = if n < 10 then [decDigit n] else natToDecAux n (n / 10) ++ [decDigit (n % 10)] := rfl
  rw [h0]
  by_cases hn : n < 10
  · simp [hn]
  · have hdiv : n / 10 < n := Nat.div_lt_self (by omega) (by omega)
    rw [if_neg hn, if_neg hn, natToDecAux_fuel n (n / 10 + 1) (n / 10) hdiv (by omega)]
    rfl

theorem natToDec_ne_nil (n : Nat) : natToDec n ≠ [] := by
  rw [natToDec_eq]; split <;> simp

theorem natToDec_getLast? (n : Nat) : (natToDec n).getLast? = some (decDigit (n % 10)) := by
  rw [natToDec_eq]
  split
  · next h => rw [Nat.mod_eq_of_lt h]; rfl
  · exact List.getLast?_concat _

theorem natToDec_dropLast (n : Nat) :
    (natToDec n).dropLast = if n < 10 then [] else natToDec (n / 10) := by
  rw [natToDec_eq]
  split
  · rfl
  · simp

theorem decDigit_inj : ∀ d1 < 10, ∀ d2 < 10, decDigit d1 = decDigit d2 → d1 = d2 := by decide

theorem natToDec_inj : ∀ m n : Nat, natToDec m = natToDec n → m = n := by
  intro m
  induction m using Nat.strong_induction_on with
  | _ m ih =>
    intro n h
    have hlast := congrArg List.getLast? h
    rw [natToDec_getLast?, natToDec_getLast?] at hlast
    have hmod : m % 10 = n % 10 :=
      decDigit_inj _ (Nat.mod_lt _ (by omega)) _ (Nat.mod_lt _ (by omega)) (Option.some.inj hlast)
    have hdrop := congrArg List.dropLast h
    rw [natToDec_dropLast, natToDec_dropLast] at hdrop
    by_cases hm : m < 10 <;> by_cases hn : n < 10
    · omega
    · rw [if_pos hm, if_neg hn] at hdrop
      exact absurd hdrop.symm (natToDec_ne_nil _)
    · rw [if_neg hm, if_pos hn] at hdrop
      exact absurd hdrop (natToDec_ne_nil _)
    · rw [if_neg hm, if_neg hn] at hdrop
      have hdiv : m / 10 = n / 10 := ih (m / 10) (Nat.div_lt_self (by omega) (by omega)) _ hdrop
      omega

/-- Every character of a decimal rendering is a digit character. -/
theorem natToDec_mem (n : Nat) : ∀ c ∈ natToDec n, ∃ d, d < 10 ∧ c = decDigit d := by
  induction n using Nat.strong_induction_on with
  | _ n ih =>
    intro c hc
    rw [natToDec_eq] at hc
    split at hc
    · next h =>
      simp at hc
      exact ⟨n, h, hc⟩
    · next h =>
      rcases List.mem_append.1 hc with h1 | h1
      · exact ih (n / 10) (Nat.div_lt_self (by omega) (by omega)) c h1
      · simp at h1
        exact ⟨n % 10, Nat.mod_lt _ (by omega), h1⟩

theorem slash_not_mem_natToDec (n : Nat) : '/' ∉ natToDec n := by
  intro h
  obtain ⟨d, hd, he⟩ := natToDec_mem n '/' h
  revert he
  revert hd
  revert d
  decide

theorem dot_not_mem_natToDec (n : Nat) : '.' ∉ natToDec n := by
  intro h
  obtain ⟨d, hd, he⟩ := natToDec_mem n '.' h
  revert he
  revert hd
  revert d
  decide

/-- Zero-padded two-digit rendering: Python `%02d` / `{:02d}` (for values below 100). -/
def pad2 (n : Nat) : List Char := if n < 10 then '0' :: natToDec n else natToDec n

/-! ### POSIX path primitives (`os.path` on a `/`-separated path)

`basenameL l` is the run after the last `/` (`os.path.basename`),
`headSlashPart l` is everything up to and including the last `/`
(CPython's `head = p[:i]` in `posixpath.split`), and `dirnameL`
strips trailing slashes from that head unless it consists of slashes
only (`os.path.dirname`). -/

def basenameL (l : List Char) : List Char := (l.reverse.takeWhile (fun c => c != '/')).reverse

def headSlashPart (l : List Char) : List Char := (l.reverse.dropWhile (fun c => c != '/')).reverse

def rstripSlash (l : List Char) : List Char := (l.reverse.dropWhile (fun c => c == '/')).reverse

def dirnameL (l : List Char) : List Char :=
  let head := headSlashPart l
  if head.isEmpty || head.all (fun c => c == '/') then head else rstripSlash head

/-- CPython `genericpath._splitext` restricted to separator `/`: split off the
extension at the last dot of the final path component, unless every character
of that component before the last dot is itself a dot (leading-dot files). -/
def splitextBase (b : List Char) : List Char × List Char :=
  let rafter := b.reverse.takeWhile (fun c => c != '.')
  if rafter.length = b.length then (b, [])
  else
    let root := b.take (b.length - rafter.length - 1)
    if root.all (fun c => c == '.') then (b, []) else (root, '.' :: rafter.reverse)

def splitextL (l : List Char) : List Char × List Char :=
  let base := basenameL l
  let p := splitextBase base
  (l.take (l.length - base.length) ++ p.1, p.2)

/-- `posixpath.join` for two components. -/
def joinL (a b : List Char) : List Char :=
  if b.head? = some '/' then b
  else if a.isEmpty || a.getLast? = some '/' then a ++ b
  else a ++ '/' :: b

def dirname (s : String) : String := ⟨dirnameL s.data⟩

def basename (s : String) : String := ⟨basenameL s.data⟩

def splitext (s : String) : String × String := ((⟨(splitextL s.data).1⟩ : String), (⟨(splitextL s.data).2⟩ : String))

def pathJoin (a b : String) : String := ⟨joinL a.data b.data⟩

/-! ### Character classes and text cleaning (constants.py regex patterns) -/

/-- Python regex `\w` (ASCII fragment): letters, digits, underscore. -/
def isWordChar (c : Char) : Bool := c.isAlphanum || c == '_'

/-- Python regex `\s` (ASCII fragment). -/
def isSpaceChar (c : Char) : Bool :=
  c == ' ' || c == '\t' || c == '\n' || c == '\x0b' || c == '\x0c' || c == '\r'

/-- Python `str.lower` on an ASCII character. -/
def asciiLower (c : Char) : Char := if 'A' ≤ c ∧ c ≤ 'Z' then Char.ofNat (c.toNat + 32) else c

/-- `_clean_filename` (file_operations.py): first delete every character that
matches `FILENAME_CLEAN_PATTERN = [^\w\s-]`, then delete every character of a
`FILENAME_SPACES_PATTERN = [-\s]+` run. Case is preserved. -/
def _clean_filename (s : String) : String :=
  let step1 := s.data.filter (fun c => isWordChar c || isSpaceChar c || c == '-')
  ⟨step1.filter (fun c => !(c == '-' || isSpaceChar c))⟩

/-- Replace every maximal run of `[-\s]` characters with a single hyphen
(the `re.sub(r'[-\s]+', '-', value)` step of `django.utils.text.slugify`);
the flag records whether the previous character belonged to such a run. -/
def collapseDS : Bool → List Char → List Char
  | _, [] => []
  | inRun, c :: rest =>
    if c == '-' || isSpaceChar c then
      (if inRun then [] else ['-']) ++ collapseDS true rest
    else c :: collapseDS false rest

def isDashOrUnderscore (c : Char) : Bool := c == '-' || c == '_'

def stripDashUnderscore (l : List Char) : List Char :=
  ((l.dropWhile isDashOrUnderscore).reverse.dropWhile isDashOrUnderscore).reverse

/-- `django.utils.text.slugify` (ASCII fragment, `allow_unicode=False`):
lowercase, drop `[^\w\s-]`, collapse `[-\s]+` runs to `-`, strip `-_` at both ends. -/
def slugify (s : String) : String :=
  let lowered := s.data.map asciiLower
  let s1 := lowered.filter (fun c => isWordChar c || isSpaceChar c || c == '-')
  ⟨stripDashUnderscore (collapseDS false s1)⟩

/-! ### Dates, Indonesian and English month names (constants.py, models.py) -/

structure Date where
  year : Nat
  month : Nat
  day : Nat
deriving DecidableEq, Repr

structure DateTime where
  year : Nat
  month : Nat
  day : Nat
  hour : Nat
  minute : Nat
  second : Nat
deriving DecidableEq, Repr

/-- `date.strftime('%Y-%m-%d')` (= `FILENAME_DATE_FORMAT` / `DateFormat.FILE_NAME`). -/
def strftimeDate (d : Date) : String := ⟨natToDec d.year ++ '-' :: (pad2 d.month ++ '-' :: pad2 d.day)⟩

/-- `datetime.strftime('%Y%m%d_%H%M%S')` (upload timestamp in models.document_upload_path). -/
def strftimeTimestamp (t : DateTime) : String :=
  ⟨natToDec t.year ++ pad2 t.month ++ pad2 t.day ++ '_' :: (pad2 t.hour ++ pad2 t.minute ++ pad2 t.second)⟩

/-- `IndonesianMonth.MONTHS`; `none` models the `ValueError` branch of `get_month_name`. -/
def IndonesianMonth.get_month_name : Nat → Option String
  | 1 => some "Januari"
  | 2 => some "Februari"
  | 3 => some "Maret"
  | 4 => some "April"
  | 5 => some "Mei"
  | 6 => some "Juni"
  | 7 => some "Juli"
  | 8 => some "Agustus"
  | 9 => some "September"
  | 10 => some "Oktober"
  | 11 => some "November"
  | 12 => some "Desember"
  | _ => none

/-- `IndonesianMonth.get_month_folder`: `f"{month_number:02d}-{month_name}"`. -/
def IndonesianMonth.get_month_folder (m : Nat) : Option String :=
  (IndonesianMonth.get_month_name m).map (fun nm => ⟨pad2 m ++ '-' :: nm.data⟩)

/-- `DateFormat.get_folder_path`: year via `strftime('%Y')`, month folder in Indonesian. -/
def DateFormat.get_folder_path (d : Date) : Option (String × String) :=
  (IndonesianMonth.get_month_folder d.month).map (fun mf => ((⟨natToDec d.year⟩ : String), mf))

/-- C-locale `strftime('%B')` month names, as produced by
`models.document_upload_path` via `date.strftime('%m-%B')`. -/
def englishMonthName : Nat → Option String
  | 1 => some "January"
  | 2 => some "February"
  | 3 => some "March"
  | 4 => some "April"
  | 5 => some "May"
  | 6 => some "June"
  | 7 => some "July"
  | 8 => some "August"
  | 9 => some "September"
  | 10 => some "October"
  | 11 => some "November"
  | 12 => some "December"
  | _ => none

/-! ### Categories, employees, SPD metadata, documents (models.py) -/

/-- `DocumentCategory`: self-referential tree with a nullable parent. -/
inductive Category where
  | root (name slug : String)
  | child (name slug : String) (parent : Category)
deriving DecidableEq, Repr

def Category.name : Category → String
  | .root n _ => n
  | .child n _ _ => n

def Category.slug : Category → String
  | .root _ s => s
  | .child _ s _ => s

def Category.parent? : Category → Option Category
  | .root _ _ => none
  | .child _ _ p => some p

/-- `DocumentCategory.get_full_path`. -/
def Category.get_full_path : Category → String
  | .root _ s => s
  | .child _ s p => p.get_full_path ++ "/" ++ s

structure Employee where
  nip : String
  name : String
deriving DecidableEq, Repr

/-- `SPDDocument` metadata (minus the back reference to its document). -/
structure SPDInfo where
  employee : Employee
  destination : String
  destination_other : Option String
  start_date : Date
  end_date : Date
deriving DecidableEq, Repr

/-- `SPDDocument.DESTINATION_CHOICES` / constants.DESTINATION_CHOICES. -/
def DESTINATION_CHOICES : List (String × String) :=
  [("balikpapan", "Balikpapan"), ("samarinda", "Samarinda"), ("bontang", "Bontang"),
   ("kutai_kartanegara", "Kutai Kartanegara"), ("paser", "Paser"), ("berau", "Berau"),
   ("kutai_barat", "Kutai Barat"), ("kutai_timur", "Kutai Timur"),
   ("penajam_paser_utara", "Penajam Paser Utara"), ("mahakam_ulu", "Mahakam Ulu"),
   ("jakarta", "Jakarta"), ("surabaya", "Surabaya"), ("makassar", "Makassar"),
   ("banjarmasin", "Banjarmasin"), ("yogyakarta", "Yogyakarta"), ("bandung", "Bandung"),
   ("semarang", "Semarang"), ("denpasar", "Denpasar"), ("other", "Lainnya")]

/-- Django `get_destination_display`: choice label, or the raw value when unknown. -/
def get_destination_display (dest : String) : String := (DESTINATION_CHOICES.lookup dest).getD dest

/-- `SPDDocument.get_destination_display_full`: `destination_other or 'Lainnya'`
when the choice is `other` (Python `or` also replaces an empty string). -/
def SPDInfo.get_destination_display_full (spd : SPDInfo) : String :=
  if spd.destination == "other" then
    match spd.destination_other with
    | some s => if s == "" then "Lainnya" else s
    | none => "Lainnya"
  else get_destination_display spd.destination

/-- `Document` (models.py); `file` holds the stored name relative to MEDIA_ROOT,
`spd_info` the optional reverse one-to-one `SPDDocument`. -/
structure Doc where
  id : Nat
  file : Option String
  file_size : Nat
  document_date : Date
  category : Category
  created_by : Nat
  created_at : DateTime
  updated_at : DateTime
  version : Nat
  is_deleted : Bool
  deleted_at : Option DateTime
  spd_info : Option SPDInfo
deriving DecidableEq, Repr

/-! ### Filename generation (file_operations.py) -/

/-- `generate_spd_filename`; the Python function reaches the owning document
through `spd_document.document`, which is passed here explicitly. -/
def generate_spd_filename (document : Doc) (spd : SPDInfo) : String :=
  let employee_name := _clean_filename spd.employee.name
  let destination_clean := _clean_filename spd.get_destination_display_full
  let date_str := strftimeDate document.document_date
  "SPD_" ++ employee_name ++ "_" ++ destination_clean ++ "_" ++ date_str ++ ".pdf"

/-- `generate_document_filename`: child categories contribute their name,
root categories their slug. -/
def generate_document_filename (document : Doc) : String :=
  let category := document.category
  let category_name := match category.parent? with
    | some _ => category.name
    | none => category.slug
  let category_clean := _clean_filename category_name
  let date_str := strftimeDate document.document_date
  category_clean ++ "_" ++ date_str ++ ".pdf"

/-! ### Upload path construction (constants.py FilePathBuilder, models.py) -/

/-- `FilePathBuilder.build_upload_path`. -/
def FilePathBuilder.build_upload_path (category_path : String) (d : Date) (filename : String) : Option String :=
  (DateFormat.get_folder_path d).map
    (fun yf => "uploads/" ++ category_path ++ "/" ++ yf.1 ++ "/" ++ yf.2 ++ "/" ++ filename)

/-- `FilePathBuilder.build_directory_path`. -/
def FilePathBuilder.build_directory_path (category_path : String) (d : Date) : Option String :=
  (DateFormat.get_folder_path d).map
    (fun yf => "uploads/" ++ category_path ++ "/" ++ yf.1 ++ "/" ++ yf.2)

/-- `models.document_upload_path`, the `upload_to` callback used at initial upload.
It formats the month folder with `strftime('%m-%B')` (C-locale English month
name) and appends a wall-clock timestamp `now` to the slugified stem.
The `document_date or datetime.now()` fallback is not reachable here because
`document_date` is a non-null field. -/
def document_upload_path (category : Category) (document_date : Date) (filename : String) (now : DateTime) : Option String :=
  let category_path := category.get_full_path
  (englishMonthName document_date.month).map (fun mn =>
    let year : String := ⟨natToDec document_date.year⟩
    let month : String := ⟨pad2 document_date.month ++ '-' :: mn.data⟩
    let se := splitextL filename.data
    let clean_name := slugify ⟨se.1⟩
    "uploads/" ++ category_path ++ "/" ++ year ++ "/" ++ month ++ "/" ++ clean_name ++ "_" ++
      strftimeTimestamp now ++ ⟨se.2⟩)

/-! ### Upload validation (constants.py, file_operations.validate_pdf_file) -/

def MAX_FILE_SIZE : Nat := 10 * 1024 * 1024

def ALLOWED_FILE_EXTENSIONS : List String := ["pdf"]

/-- `PDF_FILE_SIGNATURE = b'%PDF'` as byte values. -/
def PDF_FILE_SIGNATURE : List Nat := [37, 80, 68, 70]

def ERROR_INVALID_EXTENSION : String := "File harus berformat PDF"

/-- `ERROR_FILE_TOO_LARGE.format(max_size=format_file_size(MAX_FILE_SIZE))`:
`format_file_size` yields "10.00 MB" and the template appends a second "MB". -/
def ERROR_FILE_TOO_LARGE_MSG : String := "Ukuran file maksimal 10.00 MB MB"

def ERROR_INVALID_PDF : String := "File bukan PDF yang valid"

/-- A Django `UploadedFile`: name, reported size, byte content, read position. -/
structure UploadedFile where
  name : String
  size : Nat
  content : List Nat
  pos : Nat
deriving DecidableEq, Repr

/-- `file.read(n)`: bytes from the current position, advancing it. -/
def fileRead (f : UploadedFile) (n : Nat) : UploadedFile × List Nat :=
  ({ f with pos := min (f.pos + n) f.content.length }, (f.content.drop f.pos).take n)

/-- `file.seek(p)`. -/
def fileSeek (f : UploadedFile) (p : Nat) : UploadedFile := { f with pos := p }

/-- Python `str.lstrip('.')`. -/
def lstripDot (l : List Char) : List Char := l.dropWhile (fun c => c == '.')

/-- `validate_pdf_file`. Besides the verdict `(is_valid, error_message)` the
embedding returns the file in its final state and the log of reads performed,
each entry being (position read from, bytes requested, bytes returned). -/
def validate_pdf_file (f : UploadedFile) : UploadedFile × List (Nat × Nat × List Nat) × (Bool × Option String) :=
  if ¬ ((⟨lstripDot ((splitextL f.name.data).2.map asciiLower)⟩ : String) ∈ ALLOWED_FILE_EXTENSIONS) then
    (f, [], (false, some ERROR_INVALID_EXTENSION))
  else if f.size > MAX_FILE_SIZE then
    (f, [], (false, some ERROR_FILE_TOO_LARGE_MSG))
  else if (fileRead (fileSeek f 0) 4).2 ≠ PDF_FILE_SIGNATURE then
    (fileSeek (fileRead (fileSeek f 0) 4).1 0, [(0, 4, (fileRead (fileSeek f 0) 4).2)],
      (false, some ERROR_INVALID_PDF))
  else
    (fileSeek (fileRead (fileSeek f 0) 4).1 0, [(0, 4, (fileRead (fileSeek f 0) 4).2)], (true, none))

/-! ### Filesystem world, unique filepaths (file_operations.ensure_unique_filepath) -/

/-- Django `settings.MEDIA_ROOT`, modelled as a fixed absolute directory. -/
def MEDIA_ROOT : String := "/media"

/-- Filesystem state: regular files (absolute path, size) and directories. -/
structure World where
  files : List (String × Nat)
  dirs : List String
deriving DecidableEq, Repr

/-- `os.path.exists` (true for files and directories alike). -/
def existsPath (w : World) (p : String) : Bool :=
  w.files.any (fun e => e.1 == p) || w.dirs.contains p

/-- Size of the regular file at `p`, if any. -/
def sizeOfPath (w : World) (p : String) : Option Nat :=
  (w.files.find? (fun e => e.1 == p)).map (fun e => e.2)

/-- Every existing path of the world, the set `os.path.exists` tests against. -/
def allPaths (w : World) : List String := w.files.map (fun e => e.1) ++ w.dirs

/-- `f"{name}_{counter}{ext}"`. -/
def candidateName (stem : List Char) (c : Nat) (ext : List Char) : List Char :=
  stem ++ '_' :: (natToDec c ++ ext)

/-- The `while True` loop of `ensure_unique_filepath`, driven by fuel; the
call site supplies fuel `E.length + 1`, which is enough for the loop to
reach a free name (proved below). -/
def uniqueLoop (E : List String) (d stem ext : List Char) : Nat → Nat → String
  | 0, c => ⟨joinL d (candidateName stem c ext)⟩
  | fuel + 1, c =>
    let np : String := ⟨joinL d (candidateName stem c ext)⟩
    if np ∈ E then uniqueLoop E d stem ext fuel (c + 1) else np

/-- `ensure_unique_filepath`, with the filesystem state made explicit as the
list `E` of existing paths. -/
def ensure_unique_filepath (E : List String) (filepath : String) : String :=
  if filepath ∈ E then
    let d := dirnameL filepath.data
    let se := splitextBase (basenameL filepath.data)
    uniqueLoop E d se.1 se.2 (E.length + 1) 1
  else filepath

/-! ### Documents on the filesystem world (models.py save, signals.py, services) -/

/-- `document.file.path`: the stored name joined under MEDIA_ROOT. -/
def docFilePath (nm : String) : String := pathJoin MEDIA_ROOT nm

/-- `Document.save` override (models.py): when a file is attached,
`self.file_size = self.file.size` reads the size from storage before
`super().save()` runs and `auto_now` refreshes `updated_at`. Django's
`FieldFile.size` goes through `storage.size` / `os.path.getsize`, which
raises `OSError` when the stored file is missing from disk; `none` models
that exception propagating out of `save` with the instance unchanged. -/
def Doc.save (w : World) (doc : Doc) (now : DateTime) : Option Doc :=
  match doc.file with
  | none => some { doc with updated_at := now }
  | some nm =>
    match sizeOfPath w (docFilePath nm) with
    | none => none
    | some sz => some { doc with file_size := sz, updated_at := now }

/-- The chain `d`, `dirname d`, `dirname (dirname d)`, … (fuel-bounded). -/
def ancestorChain : Nat → List Char → List String
  | 0, _ => []
  | fuel + 1, d =>
    if d.isEmpty then []
    else if dirnameL d == d then [(⟨d⟩ : String)]
    else (⟨d⟩ : String) :: ancestorChain fuel (dirnameL d)

/-- `os.makedirs(d, exist_ok=True)`: create `d` and its missing ancestors. -/
def makedirs (w : World) (d : String) : World :=
  let chain := ancestorChain (d.data.length + 1) d.data
  { w with dirs := w.dirs ++ chain.filter (fun x => ¬ (x ∈ w.dirs)) }

/-- `os.listdir d` is non-empty: some file or directory sits directly in `d`. -/
def dirHasEntries (w : World) (d : String) : Bool :=
  w.files.any (fun e => dirname e.1 == d) || w.dirs.any (fun x => dirname x == d)

/-- Which of relocation's fallible filesystem/database steps fail, modelling
the exceptions the Python code can encounter. -/
structure Oracle where
  mkdirFail : Bool
  moveFail : Bool
  saveFail : Bool
  rmdirFail : Bool
deriving DecidableEq, Repr

/-- The inner `try`/`except` of `relocate_document_file` that prunes the old
directory and then its parent when empty; every error is swallowed
(`os.listdir` on a missing directory raises, aborting the cleanup). -/
def cleanupOldDirs (w : World) (oldDir : String) (o : Oracle) : World :=
  if ¬ (oldDir ∈ w.dirs) then w
  else if o.rmdirFail then w
  else if dirHasEntries w oldDir then w
  else
    let w1 : World := { w with dirs := w.dirs.filter (fun x => x ≠ oldDir) }
    let parent := dirname oldDir
    if ¬ (parent ∈ w1.dirs) then w1
    else if dirHasEntries w1 parent then w1
    else { w1 with dirs := w1.dirs.filter (fun x => x ≠ parent) }

/-- Outcome of `relocate_document_file`: final filesystem, final in-memory
document, return value, number of `logger.error` calls, number of
`shutil.move` attempts and of completed moves. -/
structure RelocResult where
  world : World
  doc : Doc
  ret : Option String
  errorLogs : Nat
  moveAttempts : Nat
  movesDone : Nat
deriving DecidableEq, Repr

/-- `relocate_document_file` (file_operations.py). The body after the early
returns sits in a `try` whose handler logs once and yields `None`; a failing
step therefore produces `errorLogs = 1` with the filesystem changes made so
far kept. The final `document.save(update_fields=['file'])` also runs inside
that `try`: if its `self.file.size` raises (moved file unexpectedly absent),
the handler catches it too — the document then keeps its stale `file_size`
and `updated_at`, with only `file` reassigned. `now` feeds only the
`auto_now` timestamp of the final save. -/
def relocate_document_file (w : World) (doc : Doc) (now : DateTime) (o : Oracle) : RelocResult :=
  match doc.file with
  | none => ⟨w, doc, none, 0, 0, 0⟩
  | some nm =>
    let old_path := docFilePath nm
    if ¬ existsPath w old_path then ⟨w, doc, none, 0, 0, 0⟩
    else
      let new_filename : String :=
        if doc.category.slug == "spd" ||
            (match doc.category.parent? with | some p => p.slug == "spd" | none => false) then
          match doc.spd_info with
          | some spd => generate_spd_filename doc spd
          | none =>
            "SPD_" ++ strftimeDate doc.document_date ++ "_" ++ (⟨natToDec doc.id⟩ : String) ++ ".pdf"
        else generate_document_filename doc
      let category_path := doc.category.get_full_path
      match DateFormat.get_folder_path doc.document_date with
      | none => ⟨w, doc, none, 1, 0, 0⟩
      | some yf =>
        let relDir : String := "uploads/" ++ category_path ++ "/" ++ yf.1 ++ "/" ++ yf.2
        let new_dir := pathJoin MEDIA_ROOT relDir
        if o.mkdirFail then ⟨w, doc, none, 1, 0, 0⟩
        else
          let w1 := makedirs w new_dir
          let new_path := ensure_unique_filepath (allPaths w1) (pathJoin new_dir new_filename)
          let new_filename2 := basename new_path
          if old_path ≠ new_path then
            if o.moveFail then ⟨w1, doc, none, 1, 1, 0⟩
            else
              let sz := (sizeOfPath w1 old_path).getD 0
              let w2 : World :=
                { w1 with files := (w1.files.filter (fun e => e.1 ≠ old_path)) ++ [(new_path, sz)] }
              let w3 := cleanupOldDirs w2 (dirname old_path) o
              let new_relative_path : String :=
                "uploads/" ++ category_path ++ "/" ++ yf.1 ++ "/" ++ yf.2 ++ "/" ++ new_filename2
              let dpre := { doc with file := some new_relative_path }
              match Doc.save w3 dpre now with
              | none => ⟨w3, dpre, none, 1, 1, 1⟩
              | some doc2 =>
                if o.saveFail then ⟨w3, doc2, none, 1, 1, 1⟩
                else ⟨w3, doc2, some new_relative_path, 0, 1, 1⟩
          else ⟨w1, doc, none, 0, 0, 0⟩

/-- Outcome of `DocumentService.update_document`; `raised = true` models the
initial `document.save()` raising (missing stored file), which propagates out
of the `transaction.atomic` block before relocation or logging run. -/
structure UpdateResult where
  world : World
  doc : Doc
  raised : Bool
  activityLogs : Nat
  relocRet : Option String
  relocErrorLogs : Nat
  relocMovesDone : Nat
deriving DecidableEq, Repr

/-- `DocumentService.update_document`: set the new category and date, bump the
version, save, then relocate the file (whose failures never abort the update)
and append one activity-log row. If the save itself raises (stored file
missing from storage), the exception propagates: the transaction rolls back,
nothing is relocated or logged, and the in-memory document keeps the already
assigned metadata mutations. -/
def DocumentService.update_document (w : World) (doc : Doc) (category : Category)
    (document_date : Date) (user : Nat) (now : DateTime) (o : Oracle) : UpdateResult :=
  let d1 := { doc with category := category, document_date := document_date, version := doc.version + 1 }
  match Doc.save w d1 now with
  | none => ⟨w, d1, true, 0, none, 0, 0⟩
  | some d2 =>
    let r := relocate_document_file w d2 now o
    ⟨r.world, r.doc, false, 1, r.ret, r.errorLogs, r.movesDone⟩

/-- `DocumentService.delete_document` (soft delete): set the flags, save, log
one activity row; the filesystem is returned untouched. When the stored file
is missing from storage the save raises before the activity row is written
(third component 0), with the flags already set on the in-memory document. -/
def DocumentService.delete_document (w : World) (doc : Doc) (user : Nat) (now : DateTime) :
    World × Doc × Nat :=
  let d1 := { doc with is_deleted := true, deleted_at := some now }
  match Doc.save w d1 now with
  | none => (w, d1, 0)
  | some d2 => (w, d2, 1)

/-- The `while directory != MEDIA_ROOT` pruning loop of the `pre_delete`
handler; `os.listdir` on a missing directory raises `OSError`, which the
handler swallows, ending the loop (also modelled by fuel running out). -/
def cleanupLoop : Nat → World → String → World
  | 0, w, _ => w
  | fuel + 1, w, d =>
    if d == MEDIA_ROOT then w
    else if ¬ (d ∈ w.dirs) then w
    else if dirHasEntries w d then w
    else cleanupLoop fuel { w with dirs := w.dirs.filter (fun x => x ≠ d) } (dirname d)

/-- `signals.document_pre_delete`: on a hard delete, remove the physical file
and best-effort prune now-empty ancestor directories. -/
def document_pre_delete (w : World) (doc : Doc) : World :=
  match doc.file with
  | none => w
  | some nm =>
    let file_path := docFilePath nm
    if existsPath w file_path then
      let w1 : World := { w with files := w.files.filter (fun e => e.1 ≠ file_path) }
      cleanupLoop (file_path.data.length + 1) w1 (dirname file_path)
    else w

/-! ### Generic list and string lemmas -/

theorem string_mk_inj {a b : List Char} : (⟨a⟩ : String) = ⟨b⟩ ↔ a = b :=
  ⟨fun h => by cases h; rfl, fun h => by rw [h]⟩

theorem takeWhile_append_all {p : Char → Bool} {xs : List Char} (ys : List Char)
    (h : ∀ a ∈ xs, p a = true) : (xs ++ ys).takeWhile p = xs ++ ys.takeWhile p := by
  induction xs with
  | nil => simp
  | cons x t ih =>
    have hx : p x = true := h x (by simp)
    simp only [List.cons_append, List.takeWhile_cons_of_pos hx, List.cons.injEq, true_and]
    exact ih (fun a ha => h a (by simp [ha]))

theorem dropWhile_append_all {p : Char → Bool} {xs : List Char} (ys : List Char)
    (h : ∀ a ∈ xs, p a = true) : (xs ++ ys).dropWhile p = ys.dropWhile p := by
  induction xs with
  | nil => simp
  | cons x t ih =>
    have hx : p x = true := h x (by simp)
    simp only [List.cons_append, List.dropWhile_cons_of_pos hx]
    exact ih (fun a ha => h a (by simp [ha]))

theorem dropWhile_eq_self_of_forall {p : Char → Bool} {l : List Char}
    (h : ∀ a ∈ l, p a = false) : l.dropWhile p = l := by
  cases l with
  | nil => rfl
  | cons x t => exact List.dropWhile_cons_of_neg (by simp [h x (by simp)])

/-! ### Character facts for the extension check -/

theorem toNat_char_ofNat {n : Nat} (h : n.isValidChar) : (Char.ofNat n).toNat = n := by
  rw [Char.ofNat, dif_pos h]
  rfl

theorem asciiLower_eq_dot : ∀ c : Char, asciiLower c = '.' → c = '.' := by
  intro c h
  unfold asciiLower at h
  split at h
  · next hr =>
    exfalso
    have h1 : (65 : Nat) ≤ c.toNat := UInt32.le_toNat_of_le (by decide) hr.1
    have h2 : c.toNat ≤ (90 : Nat) := UInt32.toNat_le_of_le (by decide) hr.2
    have hv : Nat.isValidChar (c.toNat + 32) := Or.inl (by omega)
    have ht := congrArg Char.toNat h
    rw [toNat_char_ofNat hv] at ht
    have hdot : ('.' : Char).toNat = 46 := by decide
    omega
  · exact h

/-- The extension returned by `splitext` is empty or a dot followed by a
dot-free remainder. -/
theorem splitextBase_ext_shape (b : List Char) :
    (splitextBase b).2 = [] ∨ ∃ rest, (splitextBase b).2 = '.' :: rest ∧ '.' ∉ rest := by
  unfold splitextBase
  by_cases h1 : (b.reverse.takeWhile (fun c => c != '.')).length = b.length
  · left
    simp [h1]
  · by_cases h2 :
      (b.take (b.length - (b.reverse.takeWhile (fun c => c != '.')).length - 1)).all (fun c => c == '.')
    · left
      simp [h1, h2]
    · right
      refine ⟨(b.reverse.takeWhile (fun c => c != '.')).reverse, ?_, ?_⟩
      · simp [h1, h2]
      · intro hmem
        have := List.mem_takeWhile_imp (List.mem_reverse.1 hmem)
        simp at this

/-- The Python check `splitext(name)[1].lower().lstrip('.') in ['pdf']` holds
exactly when the lowercased extension of `name` is `.pdf`. -/
theorem pdf_ext_check (name : String) :
    ((⟨lstripDot ((splitextL name.data).2.map asciiLower)⟩ : String) ∈ ALLOWED_FILE_EXTENSIONS)
      ↔ (⟨(splitextL name.data).2.map asciiLower⟩ : String) = ".pdf" := by
  have hsh : (splitextL name.data).2 = (splitextBase (basenameL name.data)).2 := rfl
  rcases splitextBase_ext_shape (basenameL name.data) with h | ⟨rest, h, hfree⟩
  · rw [hsh, h]
    decide
  · rw [hsh, h]
    have hlow : asciiLower '.' = '.' := by decide
    have hmapfree : ∀ a ∈ rest.map asciiLower, (a == '.') = false := by
      intro a ha
      simp only [List.mem_map] at ha
      obtain ⟨x, hx, hax⟩ := ha
      by_cases hax2 : a = '.'
      · exfalso
        have hxdot : x = '.' := asciiLower_eq_dot x (by rw [hax, hax2])
        exact hfree (hxdot ▸ hx)
      · simp [hax2]
    have hpos : (('.' : Char) == '.') = true := by decide
    have hstrip : lstripDot (('.' :: rest).map asciiLower) = rest.map asciiLower := by
      simp only [List.map_cons, hlow, lstripDot, List.dropWhile_cons_of_pos hpos]
      exact dropWhile_eq_self_of_forall hmapfree
    rw [hstrip]
    simp only [List.map_cons, hlow, ALLOWED_FILE_EXTENSIONS, List.mem_singleton]
    constructor
    · intro hc
      have : rest.map asciiLower = "pdf".data := congrArg String.data hc
      rw [show (".pdf" : String) = ⟨'.' :: "pdf".data⟩ from rfl, string_mk_inj, this]
    · intro hc
      have h2 : '.' :: rest.map asciiLower = '.' :: "pdf".data := by
        rw [show (".pdf" : String) = ⟨'.' :: "pdf".data⟩ from rfl, string_mk_inj] at hc
        exact hc
      have : rest.map asciiLower = "pdf".data := by injection h2
      rw [show ("pdf" : String) = ⟨"pdf".data⟩ from rfl, string_mk_inj, this]

/-- C4: `validate_pdf_file` accepts exactly the uploads whose lowercased
filename extension is `.pdf`, whose reported size is at most 10*1024*1024
bytes (10 MB itself passes), and whose first four content bytes are `%PDF`;
otherwise it rejects with the error message of the first failing check,
checked in the order extension, size, magic bytes. -/
theorem validate_pdf_file_spec (f : UploadedFile) :
    ((validate_pdf_file f).2.2 = (true, none) ↔
      ((⟨(splitextL f.name.data).2.map asciiLower⟩ : String) = ".pdf" ∧
        f.size ≤ 10 * 1024 * 1024 ∧ f.content.take 4 = PDF_FILE_SIGNATURE)) ∧
    ((⟨(splitextL f.name.data).2.map asciiLower⟩ : String) ≠ ".pdf" →
      (validate_pdf_file f).2.2 = (false, some ERROR_INVALID_EXTENSION)) ∧
    ((⟨(splitextL f.name.data).2.map asciiLower⟩ : String) = ".pdf" →
      ¬ (f.size ≤ 10 * 1024 * 1024) →
      (validate_pdf_file f).2.2 = (false, some ERROR_FILE_TOO_LARGE_MSG)) ∧
    ((⟨(splitextL f.name.data).2.map asciiLower⟩ : String) = ".pdf" →
      f.size ≤ 10 * 1024 * 1024 → f.content.take 4 ≠ PDF_FILE_SIGNATURE →
      (validate_pdf_file f).2.2 = (false, some ERROR_INVALID_PDF)) := by
  have hext := pdf_ext_check f.name
  have hread : (fileRead (fileSeek f 0) 4).2 = f.content.take 4 := by
    simp [fileRead, fileSeek]
  unfold validate_pdf_file
  by_cases hE : (⟨(splitextL f.name.data).2.map asciiLower⟩ : String) = ".pdf"
  · rw [if_neg (not_not_intro (hext.2 hE))]
    by_cases hS : f.size ≤ 10 * 1024 * 1024
    · rw [if_neg (by simp only [MAX_FILE_SIZE]; omega)]
      by_cases hM : f.content.take 4 = PDF_FILE_SIGNATURE
      · rw [if_neg (by rw [hread]; exact not_not_intro hM)]
        exact ⟨by simp [hE, hS, hM], fun h => absurd hE h,
          fun _ h => absurd hS h, fun _ _ h => absurd hM h⟩
      · rw [if_pos (by rw [hread]; exact hM)]
        exact ⟨by simp [hM], fun h => absurd hE h,
          fun _ h => absurd hS h, fun _ _ _ => rfl⟩
    · rw [if_pos (by simp only [MAX_FILE_SIZE]; omega)]
      exact ⟨by simp [hS], fun h => absurd hE h, fun _ _ => rfl,
        fun _ h _ => absurd h hS⟩
  · rw [if_pos (fun hc => hE (hext.1 hc))]
    exact ⟨by simp [hE], fun _ => rfl, fun h => absurd h hE, fun h => absurd h hE⟩

/-- C4 witness: an upload named `laporan.PDF` of exactly 10 MB starting with
`%PDF` is accepted. -/
theorem validate_pdf_file_spec_witness :
    ((⟨(splitextL ("laporan.PDF" : String).data).2.map asciiLower⟩ : String) = ".pdf" ∧
      (10485760 : Nat) ≤ 10 * 1024 * 1024 ∧
      ([37, 80, 68, 70, 49] : List Nat).take 4 = PDF_FILE_SIGNATURE) ∧
    (validate_pdf_file ⟨"laporan.PDF", 10485760, [37, 80, 68, 70, 49], 5⟩).2.2 = (true, none) :=
  ⟨⟨by decide, by decide, by decide⟩,
    (validate_pdf_file_spec ⟨"laporan.PDF", 10485760, [37, 80, 68, 70, 49], 5⟩).1.mpr
      ⟨by decide, by decide, by decide⟩⟩

/-- C10: when the extension and size checks pass, `validate_pdf_file` performs
exactly one read, of the first four bytes, and leaves the file position reset
to 0, whether or not the magic check succeeds; when the extension or size
check fails it returns without reading and the position is untouched. -/
theorem validate_pdf_file_reads (f : UploadedFile) :
    ((⟨(splitextL f.name.data).2.map asciiLower⟩ : String) = ".pdf" →
      f.size ≤ MAX_FILE_SIZE →
      (validate_pdf_file f).2.1 = [(0, 4, f.content.take 4)] ∧
        (validate_pdf_file f).1 = { f with pos := 0 }) ∧
    (¬ ((⟨(splitextL f.name.data).2.map asciiLower⟩ : String) = ".pdf" ∧
        f.size ≤ MAX_FILE_SIZE) →
      (validate_pdf_file f).2.1 = [] ∧ (validate_pdf_file f).1 = f) := by
  have hext := pdf_ext_check f.name
  have hread : (fileRead (fileSeek f 0) 4).2 = f.content.take 4 := by
    simp [fileRead, fileSeek]
  have hfile : fileSeek (fileRead (fileSeek f 0) 4).1 0 = { f with pos := 0 } := by
    simp [fileRead, fileSeek]
  unfold validate_pdf_file
  by_cases hE : (⟨(splitextL f.name.data).2.map asciiLower⟩ : String) = ".pdf"
  · rw [if_neg (not_not_intro (hext.2 hE))]
    by_cases hS : f.size ≤ MAX_FILE_SIZE
    · rw [if_neg (by omega)]
      refine ⟨fun _ _ => ?_, fun hc => absurd ⟨hE, hS⟩ hc⟩
      by_cases hM : (fileRead (fileSeek f 0) 4).2 ≠ PDF_FILE_SIGNATURE
      · rw [if_pos hM]
        exact ⟨by rw [hread], hfile⟩
      · rw [if_neg hM]
        exact ⟨by rw [hread], hfile⟩
    · rw [if_pos (by omega)]
      exact ⟨fun _ hs => absurd hs hS, fun _ => ⟨rfl, rfl⟩⟩
  · rw [if_pos (fun hc => hE (hext.1 hc))]
    exact ⟨fun hc => absurd hc hE, fun _ => ⟨rfl, rfl⟩⟩

/-- C10 witness: a file passing the extension and size checks but failing the
magic check is read once (first four bytes) and its position is reset to 0. -/
theorem validate_pdf_file_reads_witness :
    ((⟨(splitextL ("x.pdf" : String).data).2.map asciiLower⟩ : String) = ".pdf" ∧
      (5 : Nat) ≤ MAX_FILE_SIZE) ∧
    (validate_pdf_file ⟨"x.pdf", 5, [1, 2, 3], 2⟩).2.1 = [(0, 4, [1, 2, 3])] ∧
      (validate_pdf_file ⟨"x.pdf", 5, [1, 2, 3], 2⟩).1 = ⟨"x.pdf", 5, [1, 2, 3], 0⟩ :=
  ⟨⟨by decide, by decide⟩, by
    have h := (validate_pdf_file_reads ⟨"x.pdf", 5, [1, 2, 3], 2⟩).1 (by decide) (by decide)
    exact ⟨by rw [h.1]; decide, h.2⟩⟩

/-! ### C1: the filename rule -/

/-- The claim's cleaning, read literally: remove every non-alphanumeric
character and all whitespace, preserving case. -/
def specClean (s : String) : String := ⟨s.data.filter (fun c => c.isAlphanum)⟩

/-- The cleaning the code performs: remove every non-alphanumeric character
and all whitespace except underscores, preserving case. -/
def amendedClean (s : String) : String := ⟨s.data.filter (fun c => c.isAlphanum || c == '_')⟩

theorem isWordChar_of_space {c : Char} (h : isSpaceChar c = true) : isWordChar c = false := by
  simp only [isSpaceChar, Bool.or_eq_true, beq_iff_eq] at h
  rcases h with ((((h | h) | h) | h) | h) | h <;> subst h <;> decide

theorem clean_step_pointwise (c : Char) :
    ((isWordChar c || isSpaceChar c || c == '-') && !(c == '-' || isSpaceChar c))
      = (c.isAlphanum || c == '_') := by
  by_cases hs : isSpaceChar c = true
  · have hw := isWordChar_of_space hs
    simp only [isWordChar, Bool.or_eq_false_iff] at hw
    simp [hs, hw.1, hw.2]
  · by_cases hd : c = '-'
    · subst hd
      decide
    · have hd' : (c == '-') = false := by simp [hd]
      simp only [Bool.not_eq_true] at hs
      simp [hs, hd', isWordChar]

/-- `_clean_filename` equals the single filter keeping alphanumerics and
underscores. -/
theorem _clean_filename_eq (s : String) : _clean_filename s = amendedClean s := by
  unfold _clean_filename amendedClean
  rw [string_mk_inj, List.filter_filter]
  exact List.filter_congr (fun c _ => by rw [Bool.and_comm]; exact clean_step_pointwise c)

/-- C1 counterexample: underscores survive the cleaning (employee
`Budi_Santoso`), and a parentless category contributes its slug, not its name
(category `ATK Umum` with slug `atk-umum`), so the generated filenames differ
from the claim's `SPD_{EmployeeName}_{Destination}_{YYYY-MM-DD}.pdf` and
`{Category}_{YYYY-MM-DD}.pdf` with all non-alphanumerics stripped. -/
theorem filename_rule_counterexample :
    (generate_spd_filename
        ⟨7, none, 0, ⟨2024, 1, 15⟩, Category.root "SPD" "spd", 1, ⟨2024, 1, 1, 0, 0, 0⟩,
          ⟨2024, 1, 1, 0, 0, 0⟩, 1, false, none, none⟩
        ⟨⟨"19800101", "Budi_Santoso"⟩, "jakarta", none, ⟨2024, 1, 15⟩, ⟨2024, 1, 16⟩⟩
        = "SPD_Budi_Santoso_Jakarta_2024-01-15.pdf" ∧
      "SPD_" ++ specClean "Budi_Santoso" ++ "_" ++ specClean "Jakarta" ++ "_" ++
          strftimeDate ⟨2024, 1, 15⟩ ++ ".pdf" = "SPD_BudiSantoso_Jakarta_2024-01-15.pdf" ∧
      ("SPD_Budi_Santoso_Jakarta_2024-01-15.pdf" : String) ≠ "SPD_BudiSantoso_Jakarta_2024-01-15.pdf") ∧
    (generate_document_filename
        ⟨8, none, 0, ⟨2024, 1, 15⟩, Category.root "ATK Umum" "atk-umum", 1, ⟨2024, 1, 1, 0, 0, 0⟩,
          ⟨2024, 1, 1, 0, 0, 0⟩, 1, false, none, none⟩
        = "atkumum_2024-01-15.pdf" ∧
      specClean "ATK Umum" ++ "_" ++ strftimeDate ⟨2024, 1, 15⟩ ++ ".pdf" = "ATKUmum_2024-01-15.pdf" ∧
      ("atkumum_2024-01-15.pdf" : String) ≠ "ATKUmum_2024-01-15.pdf") := by
  exact ⟨⟨by decide, by decide, by decide⟩, ⟨by decide, by decide, by decide⟩⟩

/-- C1 (amended): the generated filename is
`SPD_{EmployeeName}_{Destination}_{YYYY-MM-DD}.pdf` for SPD travel orders and
`{Category}_{YYYY-MM-DD}.pdf` for generic documents, where the cleaning
removes whitespace and every non-alphanumeric character except underscores,
preserving case, and where `{Category}` is the subcategory name when the
category has a parent and the category slug otherwise. -/
theorem filename_rule_amended :
    (∀ (document : Doc) (spd : SPDInfo),
      generate_spd_filename document spd =
        "SPD_" ++ amendedClean spd.employee.name ++ "_" ++
          amendedClean spd.get_destination_display_full ++ "_" ++
          strftimeDate document.document_date ++ ".pdf") ∧
    (∀ document : Doc,
      generate_document_filename document =
        amendedClean (match document.category.parent? with
          | some _ => document.category.name
          | none => document.category.slug) ++ "_" ++
          strftimeDate document.document_date ++ ".pdf") := by
  constructor
  · intro document spd
    simp only [generate_spd_filename, _clean_filename_eq]
  · intro document
    simp only [generate_document_filename, _clean_filename_eq]

/-! ### C2: the storage path rule -/

/-- C2: at initial upload, `models.document_upload_path` files a January 2024
document under the month folder `01-January` (C-locale `strftime('%m-%B')`)
with a slugified, timestamped filename, while the path rule — implemented by
`FilePathBuilder.build_upload_path` and used on relocation — requires the
Indonesian month folder `01-Januari` and the unchanged filename.  The repo's
own `fix_month_folders` management command exists to rename such
English-month folders, confirming the upload path is the slip. -/
theorem upload_path_month_divergence :
    document_upload_path (Category.child "ATK" "atk" (Category.root "Belanjaan" "belanjaan"))
        ⟨2024, 1, 15⟩ "scan.pdf" ⟨2024, 1, 15, 12, 0, 0⟩
      = some "uploads/belanjaan/atk/2024/01-January/scan_20240115_120000.pdf" ∧
    FilePathBuilder.build_upload_path "belanjaan/atk" ⟨2024, 1, 15⟩ "ATK_2024-01-15.pdf"
      = some "uploads/belanjaan/atk/2024/01-Januari/ATK_2024-01-15.pdf" ∧
    IndonesianMonth.get_month_folder 1 = some "01-Januari" ∧
    ("01-January" : String) ≠ "01-Januari" := by
  exact ⟨by decide, by decide, by decide, by decide⟩

/-! ### C5: soft delete keeps the file; only the pre_delete signal removes it -/

theorem cleanupLoop_files (fuel : Nat) : ∀ w d, (cleanupLoop fuel w d).files = w.files := by
  induction fuel with
  | zero => intro w d; rfl
  | succ f ih =>
    intro w d
    unfold cleanupLoop
    split
    · rfl
    · split
      · rfl
      · split
        · rfl
        · exact ih _ _

/-- C5: `DocumentService.delete_document` only sets `is_deleted` and
`deleted_at` (plus the save-refreshed bookkeeping fields), leaves the file
field untouched and performs no filesystem operation; the physical file is
removed exactly by the `pre_delete` signal handler that runs on a hard
delete, which deletes the document's file and nothing else. -/
theorem soft_delete_frame (w : World) (doc : Doc) (user : Nat) (now : DateTime) :
    (DocumentService.delete_document w doc user now).1 = w ∧
    (DocumentService.delete_document w doc user now).2.1.is_deleted = true ∧
    (DocumentService.delete_document w doc user now).2.1.deleted_at = some now ∧
    (DocumentService.delete_document w doc user now).2.1.file = doc.file ∧
    (∀ nm, doc.file = some nm → docFilePath nm ∈ w.files.map Prod.fst →
      (document_pre_delete w doc).files = w.files.filter (fun e => e.1 ≠ docFilePath nm) ∧
        docFilePath nm ∉ (document_pre_delete w doc).files.map Prod.fst) := by
  refine ⟨?_, ?_, ?_, ?_, ?_⟩
  · unfold DocumentService.delete_document Doc.save
    dsimp only
    cases doc.file with
    | none => rfl
    | some nm =>
      dsimp only
      cases sizeOfPath w (docFilePath nm) <;> rfl
  · unfold DocumentService.delete_document Doc.save
    dsimp only
    cases doc.file with
    | none => rfl
    | some nm =>
      dsimp only
      cases sizeOfPath w (docFilePath nm) <;> rfl
  · unfold DocumentService.delete_document Doc.save
    dsimp only
    cases doc.file with
    | none => rfl
    | some nm =>
      dsimp only
      cases sizeOfPath w (docFilePath nm) <;> rfl
  · unfold DocumentService.delete_document Doc.save
    dsimp only
    cases doc.file with
    | none => rfl
    | some nm =>
      dsimp only
      cases sizeOfPath w (docFilePath nm) <;> rfl
  · intro nm hnm hmem
    have hex : existsPath w (docFilePath nm) = true := by
      unfold existsPath
      have : w.files.any (fun e => e.1 == docFilePath nm) = true := by
        rw [List.any_eq_true]
        obtain ⟨e, he, heq⟩ := List.mem_map.1 hmem
        exact ⟨e, he, by simp [heq]⟩
      simp [this]
    have hres : (document_pre_delete w doc).files
        = w.files.filter (fun e => e.1 ≠ docFilePath nm) := by
      unfold document_pre_delete
      rw [hnm]
      simp only [hex, if_true]
      rw [cleanupLoop_files]
    refine ⟨hres, ?_⟩
    rw [hres]
    intro hc
    obtain ⟨e, he, heq⟩ := List.mem_map.1 hc
    have := List.of_mem_filter he
    simp [heq] at this

/-- C5 witness: a concrete document and world; the soft delete leaves the
file on disk, the pre_delete handler removes exactly it. -/
theorem soft_delete_frame_witness :
    ((⟨3, some "uploads/atk/2024/01-Januari/a.pdf", 9, ⟨2024, 1, 15⟩,
        Category.root "ATK" "atk", 1, ⟨2024, 1, 1, 0, 0, 0⟩, ⟨2024, 1, 1, 0, 0, 0⟩, 1, false,
        none, none⟩ : Doc).file = some "uploads/atk/2024/01-Januari/a.pdf" ∧
      docFilePath "uploads/atk/2024/01-Januari/a.pdf" ∈
        (⟨[("/media/uploads/atk/2024/01-Januari/a.pdf", 9), ("/media/other.pdf", 5)],
          ["/media"]⟩ : World).files.map Prod.fst) ∧
    (DocumentService.delete_document
        ⟨[("/media/uploads/atk/2024/01-Januari/a.pdf", 9), ("/media/other.pdf", 5)], ["/media"]⟩
        ⟨3, some "uploads/atk/2024/01-Januari/a.pdf", 9, ⟨2024, 1, 15⟩, Category.root "ATK" "atk",
          1, ⟨2024, 1, 1, 0, 0, 0⟩, ⟨2024, 1, 1, 0, 0, 0⟩, 1, false, none, none⟩ 1
        ⟨2024, 2, 1, 0, 0, 0⟩).1
      = ⟨[("/media/uploads/atk/2024/01-Januari/a.pdf", 9), ("/media/other.pdf", 5)], ["/media"]⟩ ∧
    (document_pre_delete
        ⟨[("/media/uploads/atk/2024/01-Januari/a.pdf", 9), ("/media/other.pdf", 5)], ["/media"]⟩
        ⟨3, some "uploads/atk/2024/01-Januari/a.pdf", 9, ⟨2024, 1, 15⟩, Category.root "ATK" "atk",
          1, ⟨2024, 1, 1, 0, 0, 0⟩, ⟨2024, 1, 1, 0, 0, 0⟩, 1, false, none, none⟩).files
      = [("/media/other.pdf", 5)] := by
  have h := soft_delete_frame
    ⟨[("/media/uploads/atk/2024/01-Januari/a.pdf", 9), ("/media/other.pdf", 5)], ["/media"]⟩
    ⟨3, some "uploads/atk/2024/01-Januari/a.pdf", 9, ⟨2024, 1, 15⟩, Category.root "ATK" "atk",
      1, ⟨2024, 1, 1, 0, 0, 0⟩, ⟨2024, 1, 1, 0, 0, 0⟩, 1, false, none, none⟩ 1
    ⟨2024, 2, 1, 0, 0, 0⟩
  refine ⟨⟨rfl, by decide⟩, h.1, ?_⟩
  have h5 := (h.2.2.2.2 "uploads/atk/2024/01-Januari/a.pdf" rfl (by decide)).1
  rw [h5]
  decide

/-! ### C6: relocation when the computed target equals the current path -/

/-- A document whose stored file already sits at exactly the path its
(unchanged) category and date compute. -/
def relocSelfDoc : Doc :=
  ⟨7, some "uploads/belanjaan/atk/2024/01-Januari/ATK_2024-01-15.pdf", 100, ⟨2024, 1, 15⟩,
    Category.child "ATK" "atk" (Category.root "Belanjaan" "belanjaan"), 1,
    ⟨2024, 1, 10, 9, 0, 0⟩, ⟨2024, 1, 10, 9, 0, 0⟩, 1, false, none, none⟩

def relocSelfWorld : World :=
  ⟨[("/media/uploads/belanjaan/atk/2024/01-Januari/ATK_2024-01-15.pdf", 100)],
    ["/media", "/media/uploads", "/media/uploads/belanjaan", "/media/uploads/belanjaan/atk",
      "/media/uploads/belanjaan/atk/2024", "/media/uploads/belanjaan/atk/2024/01-Januari"]⟩

/-- C6: with category and date unchanged the newly computed path equals the
file's current path, yet `relocate_document_file` still moves the file — to
the `_1`-suffixed sibling — because `ensure_unique_filepath` counts the
file's own path as a collision: the function's docstring promises `None`
("tidak ada perubahan") exactly here, so this run contradicts it. -/
theorem relocate_selfpath_divergence :
    FilePathBuilder.build_directory_path "belanjaan/atk" ⟨2024, 1, 15⟩
      = some "uploads/belanjaan/atk/2024/01-Januari" ∧
    generate_document_filename relocSelfDoc = "ATK_2024-01-15.pdf" ∧
    pathJoin (pathJoin MEDIA_ROOT "uploads/belanjaan/atk/2024/01-Januari") "ATK_2024-01-15.pdf"
      = docFilePath "uploads/belanjaan/atk/2024/01-Januari/ATK_2024-01-15.pdf" ∧
    (relocate_document_file relocSelfWorld relocSelfDoc ⟨2024, 2, 1, 8, 0, 0⟩
        ⟨false, false, false, false⟩).ret
      = some "uploads/belanjaan/atk/2024/01-Januari/ATK_2024-01-15_1.pdf" ∧
    (relocate_document_file relocSelfWorld relocSelfDoc ⟨2024, 2, 1, 8, 0, 0⟩
        ⟨false, false, false, false⟩).world.files
      = [("/media/uploads/belanjaan/atk/2024/01-Januari/ATK_2024-01-15_1.pdf", 100)] ∧
    (relocate_document_file relocSelfWorld relocSelfDoc ⟨2024, 2, 1, 8, 0, 0⟩
        ⟨false, false, false, false⟩).movesDone = 1 := by
  exact ⟨by decide, by decide, by decide, by decide, by decide, by decide⟩

/-! ### Relocation control-flow lemmas (shared by the C7 and C9 analyses) -/

theorem Doc.save_spec (w : World) (d : Doc) (now : DateTime) (d' : Doc)
    (h : Doc.save w d now = some d') :
    ∃ fs, d' = { d with file_size := fs, updated_at := now } := by
  unfold Doc.save at h
  cases hf : d.file with
  | none =>
    rw [hf] at h
    injection h with h2
    exact ⟨d.file_size, h2.symm⟩
  | some nm =>
    rw [hf] at h
    dsimp only at h
    cases hsz : sizeOfPath w (docFilePath nm) with
    | none => rw [hsz] at h; exact Option.noConfusion h
    | some sz =>
      rw [hsz] at h
      injection h with h2
      exact ⟨sz, h2.symm⟩

theorem Doc.save_none_file (w : World) (d : Doc) (now : DateTime) (h : d.file = none) :
    Doc.save w d now = some { d with updated_at := now } := by
  unfold Doc.save
  rw [h]

theorem Doc.save_some_size (w : World) (d : Doc) (now : DateTime) (nm : String) (sz : Nat)
    (hf : d.file = some nm) (hsz : sizeOfPath w (docFilePath nm) = some sz) :
    Doc.save w d now = some { d with file_size := sz, updated_at := now } := by
  unfold Doc.save
  rw [hf]
  dsimp only
  rw [hsz]

theorem Doc.save_raises (w : World) (d : Doc) (now : DateTime) (nm : String)
    (hf : d.file = some nm) (hsz : sizeOfPath w (docFilePath nm) = none) :
    Doc.save w d now = none := by
  unfold Doc.save
  rw [hf]
  dsimp only
  rw [hsz]

theorem Doc.save_none_inv (w : World) (d : Doc) (now : DateTime)
    (h : Doc.save w d now = none) :
    ∃ nm, d.file = some nm ∧ sizeOfPath w (docFilePath nm) = none := by
  unfold Doc.save at h
  cases hf : d.file with
  | none => rw [hf] at h; exact Option.noConfusion h
  | some nm =>
    rw [hf] at h
    dsimp only at h
    cases hsz : sizeOfPath w (docFilePath nm) with
    | none => exact ⟨nm, rfl, hsz⟩
    | some sz => rw [hsz] at h; exact Option.noConfusion h

/-- Whether `Document.save` raises does not depend on the clock. -/
theorem Doc.save_none_clock (w : World) (d : Doc) (n1 n2 : DateTime)
    (h : Doc.save w d n1 = none) : Doc.save w d n2 = none := by
  obtain ⟨nm, hf, hsz⟩ := Doc.save_none_inv w d n1 h
  exact Doc.save_raises w d n2 nm hf hsz

/-- `Document.save` on a document whose `file` was just reassigned to a name
whose physical file exists. -/
theorem Doc.save_file_some (w : World) (d : Doc) (now : DateTime) (nrp np : String) (sz : Nat)
    (hp : docFilePath nrp = np) (hsz : sizeOfPath w np = some sz) :
    Doc.save w { d with file := some nrp } now
      = some { d with file := some nrp, file_size := sz, updated_at := now } := by
  unfold Doc.save
  dsimp only
  rw [hp, hsz]

/-- Facts about the final save-and-return step of `relocate_document_file`,
for an arbitrary filesystem, reassigned stored name and prior file value. -/
theorem relocSave_facts (w' : World) (d : Doc) (nrp : String) (o : Oracle) (now : DateTime)
    (fv : Option String) :
    let M : RelocResult := match Doc.save w' d now with
      | none => ⟨w', d, none, 1, 1, 1⟩
      | some doc2 =>
        if o.saveFail then ⟨w', doc2, none, 1, 1, 1⟩ else ⟨w', doc2, some nrp, 0, 1, 1⟩
    M.errorLogs ≤ 1 ∧ M.moveAttempts ≤ 1 ∧ (M.errorLogs = 1 → M.ret = none) ∧
    (M.ret ≠ none → M.movesDone = 1 ∧ M.errorLogs = 0) ∧
    M.doc.id = d.id ∧ M.doc.version = d.version ∧ M.doc.category = d.category ∧
    M.doc.document_date = d.document_date ∧ M.doc.created_by = d.created_by ∧
    M.doc.created_at = d.created_at ∧ M.doc.is_deleted = d.is_deleted ∧
    M.doc.deleted_at = d.deleted_at ∧ M.doc.spd_info = d.spd_info ∧
    (M.doc.file = fv ∨ M.movesDone = 1) ∧
    (M.doc.updated_at = d.updated_at ∨ M.doc.updated_at = now) := by
  dsimp only
  cases hS : Doc.save w' d now with
  | none => simp
  | some d2 =>
    obtain ⟨fs, hd2⟩ := Doc.save_spec _ _ _ _ hS
    subst hd2
    dsimp only
    split <;> simp

/-- The final save-and-return step of relocation produces the same return
value and the same filesystem at any two clock readings. -/
theorem relocSave_pair (w' : World) (d : Doc) (nrp : String) (o : Oracle) (n1 n2 : DateTime) :
    ((match Doc.save w' d n1 with
      | none => (⟨w', d, none, 1, 1, 1⟩ : RelocResult)
      | some doc2 =>
        if o.saveFail then (⟨w', doc2, none, 1, 1, 1⟩ : RelocResult)
        else ⟨w', doc2, some nrp, 0, 1, 1⟩).ret
      = (match Doc.save w' d n2 with
      | none => (⟨w', d, none, 1, 1, 1⟩ : RelocResult)
      | some doc2 =>
        if o.saveFail then (⟨w', doc2, none, 1, 1, 1⟩ : RelocResult)
        else ⟨w', doc2, some nrp, 0, 1, 1⟩).ret) ∧
    ((match Doc.save w' d n1 with
      | none => (⟨w', d, none, 1, 1, 1⟩ : RelocResult)
      | some doc2 =>
        if o.saveFail then (⟨w', doc2, none, 1, 1, 1⟩ : RelocResult)
        else ⟨w', doc2, some nrp, 0, 1, 1⟩).world
      = (match Doc.save w' d n2 with
      | none => (⟨w', d, none, 1, 1, 1⟩ : RelocResult)
      | some doc2 =>
        if o.saveFail then (⟨w', doc2, none, 1, 1, 1⟩ : RelocResult)
        else ⟨w', doc2, some nrp, 0, 1, 1⟩).world) := by
  cases hS1 : Doc.save w' d n1 with
  | none =>
    rw [Doc.save_none_clock w' d n1 n2 hS1]
    exact ⟨rfl, rfl⟩
  | some d2 =>
    cases hS2 : Doc.save w' d n2 with
    | none =>
      rw [Doc.save_none_clock w' d n2 n1 hS2] at hS1
      exact Option.noConfusion hS1
    | some d2' =>
      dsimp only
      split <;> exact ⟨rfl, rfl⟩

/-- One branch walk through `relocate_document_file` collecting every
projection-level fact the C7/C9 analyses need. -/
theorem relocate_master (w : World) (doc : Doc) (now : DateTime) (o : Oracle) :
    (relocate_document_file w doc now o).errorLogs ≤ 1 ∧
    (relocate_document_file w doc now o).moveAttempts ≤ 1 ∧
    ((relocate_document_file w doc now o).errorLogs = 1 →
      (relocate_document_file w doc now o).ret = none) ∧
    ((relocate_document_file w doc now o).ret ≠ none →
      (relocate_document_file w doc now o).movesDone = 1 ∧
        (relocate_document_file w doc now o).errorLogs = 0) ∧
    (relocate_document_file w doc now o).doc.id = doc.id ∧
    (relocate_document_file w doc now o).doc.version = doc.version ∧
    (relocate_document_file w doc now o).doc.category = doc.category ∧
    (relocate_document_file w doc now o).doc.document_date = doc.document_date ∧
    (relocate_document_file w doc now o).doc.created_by = doc.created_by ∧
    (relocate_document_file w doc now o).doc.created_at = doc.created_at ∧
    (relocate_document_file w doc now o).doc.is_deleted = doc.is_deleted ∧
    (relocate_document_file w doc now o).doc.deleted_at = doc.deleted_at ∧
    (relocate_document_file w doc now o).doc.spd_info = doc.spd_info ∧
    ((relocate_document_file w doc now o).doc.file = doc.file ∨
      (relocate_document_file w doc now o).movesDone = 1) ∧
    ((relocate_document_file w doc now o).doc.updated_at = doc.updated_at ∨
      (relocate_document_file w doc now o).doc.updated_at = now) := by
  unfold relocate_document_file
  cases hfile : doc.file with
  | none => simp [hfile]
  | some nm =>
    dsimp only
    split
    · simp [hfile]
    · cases hyf : DateFormat.get_folder_path doc.document_date with
      | none => simp [hfile]
      | some yf =>
        dsimp only
        split
        · simp [hfile]
        · cases hspd : doc.spd_info with
          | some spd =>
            dsimp only
            split
            · split
              · split
                · simp [hfile, hspd]
                · exact relocSave_facts _ _ _ _ _ _
              · simp [hfile, hspd]
            · split
              · split
                · simp [hfile, hspd]
                · exact relocSave_facts _ _ _ _ _ _
              · simp [hfile, hspd]
          | none =>
            dsimp only
            split
            · split
              · split
                · simp [hfile, hspd]
                · exact relocSave_facts _ _ _ _ _ _
              · simp [hfile, hspd]
            · split
              · split
                · simp [hfile, hspd]
                · exact relocSave_facts _ _ _ _ _ _
              · simp [hfile, hspd]

theorem relocate_errorLogs_le (w : World) (doc : Doc) (now : DateTime) (o : Oracle) :
    (relocate_document_file w doc now o).errorLogs ≤ 1 :=
  (relocate_master w doc now o).1

theorem relocate_moveAttempts_le (w : World) (doc : Doc) (now : DateTime) (o : Oracle) :
    (relocate_document_file w doc now o).moveAttempts ≤ 1 :=
  (relocate_master w doc now o).2.1

theorem relocate_ret_some (w : World) (doc : Doc) (now : DateTime) (o : Oracle) :
    (relocate_document_file w doc now o).ret ≠ none →
      (relocate_document_file w doc now o).movesDone = 1 ∧
        (relocate_document_file w doc now o).errorLogs = 0 :=
  (relocate_master w doc now o).2.2.2.1

theorem relocate_log_ret_none (w : World) (doc : Doc) (now : DateTime) (o : Oracle) :
    (relocate_document_file w doc now o).errorLogs = 1 →
      (relocate_document_file w doc now o).ret = none :=
  (relocate_master w doc now o).2.2.1

theorem relocate_none_of_no_file (w : World) (doc : Doc) (now : DateTime) (o : Oracle)
    (h : doc.file = none) : relocate_document_file w doc now o = ⟨w, doc, none, 0, 0, 0⟩ := by
  unfold relocate_document_file
  rw [h]

theorem relocate_none_of_missing (w : World) (doc : Doc) (now : DateTime) (o : Oracle)
    (nm : String) (h : doc.file = some nm) (hex : existsPath w (docFilePath nm) = false) :
    relocate_document_file w doc now o = ⟨w, doc, none, 0, 0, 0⟩ := by
  unfold relocate_document_file
  rw [h]
  dsimp only
  rw [if_pos (by simp [hex])]

/-- The in-memory document coming back from relocation agrees with the input
document on every field except possibly `file`, `file_size` and
`updated_at`. -/
theorem relocate_doc_frame (w : World) (doc : Doc) (now : DateTime) (o : Oracle) :
    (relocate_document_file w doc now o).doc.id = doc.id ∧
    (relocate_document_file w doc now o).doc.version = doc.version ∧
    (relocate_document_file w doc now o).doc.category = doc.category ∧
    (relocate_document_file w doc now o).doc.document_date = doc.document_date ∧
    (relocate_document_file w doc now o).doc.created_by = doc.created_by ∧
    (relocate_document_file w doc now o).doc.created_at = doc.created_at ∧
    (relocate_document_file w doc now o).doc.is_deleted = doc.is_deleted ∧
    (relocate_document_file w doc now o).doc.deleted_at = doc.deleted_at ∧
    (relocate_document_file w doc now o).doc.spd_info = doc.spd_info := by
  obtain ⟨-, -, -, -, h5, h6, h7, h8, h9, h10, h11, h12, h13, -, -⟩ :=
    relocate_master w doc now o
  exact ⟨h5, h6, h7, h8, h9, h10, h11, h12, h13⟩

/-! ### C7: relocation error handling -/

/-- C7 counterexample: a document with no attached file makes
`relocate_document_file` return `None` silently — `logger.error` is never
called (`errorLogs = 0`), contrary to the claim that every `None` case logs
the error. -/
theorem relocate_silent_return_counterexample :
    (relocate_document_file ⟨[], []⟩
        ⟨5, none, 0, ⟨2024, 1, 15⟩, Category.root "ATK" "atk", 1, ⟨2024, 1, 1, 0, 0, 0⟩,
          ⟨2024, 1, 1, 0, 0, 0⟩, 1, false, none, none⟩
        ⟨2024, 1, 20, 0, 0, 0⟩ ⟨false, false, false, false⟩).ret = none ∧
    (relocate_document_file ⟨[], []⟩
        ⟨5, none, 0, ⟨2024, 1, 15⟩, Category.root "ATK" "atk", 1, ⟨2024, 1, 1, 0, 0, 0⟩,
          ⟨2024, 1, 1, 0, 0, 0⟩, 1, false, none, none⟩
        ⟨2024, 1, 20, 0, 0, 0⟩ ⟨false, false, false, false⟩).errorLogs = 0 := by
  exact ⟨by decide, by decide⟩

/-- C7 (amended): `relocate_document_file` never raises: it is total, and for
every input it returns `None` without logging when the document has no file or
the old physical file is missing; a failing filesystem or database step makes
it log the error exactly once and return `None`; no step is retried (at most
one move is attempted); it returns a non-`None` value only when a move
actually happened (and then nothing was logged); and the enclosing
`DocumentService.update_document` is never aborted by relocation — whether it
raises does not depend on the relocation oracle at all, and whenever its own
initial save succeeds it still bumps the version and writes its activity row
whatever the relocation oracle does. -/
theorem relocate_error_handling (w : World) (doc : Doc) (now : DateTime) (o : Oracle) :
    (doc.file = none → relocate_document_file w doc now o = ⟨w, doc, none, 0, 0, 0⟩) ∧
    (∀ nm, doc.file = some nm → existsPath w (docFilePath nm) = false →
      relocate_document_file w doc now o = ⟨w, doc, none, 0, 0, 0⟩) ∧
    (relocate_document_file w doc now o).errorLogs ≤ 1 ∧
    (relocate_document_file w doc now o).moveAttempts ≤ 1 ∧
    ((relocate_document_file w doc now o).errorLogs = 1 →
      (relocate_document_file w doc now o).ret = none) ∧
    ((relocate_document_file w doc now o).ret ≠ none →
      (relocate_document_file w doc now o).movesDone = 1 ∧
        (relocate_document_file w doc now o).errorLogs = 0) ∧
    (∀ category document_date user (o' : Oracle),
      (DocumentService.update_document w doc category document_date user now o).raised
        = (DocumentService.update_document w doc category document_date user now o').raised) ∧
    (∀ category document_date user,
      (DocumentService.update_document w doc category document_date user now o).raised = false →
        (DocumentService.update_document w doc category document_date user now o).doc.version
            = doc.version + 1 ∧
          (DocumentService.update_document w doc category document_date user now o).activityLogs
            = 1) := by
  refine ⟨fun h => relocate_none_of_no_file w doc now o h,
    fun nm h hex => relocate_none_of_missing w doc now o nm h hex,
    relocate_errorLogs_le w doc now o,
    relocate_moveAttempts_le w doc now o,
    relocate_log_ret_none w doc now o,
    relocate_ret_some w doc now o,
    ?_, ?_⟩
  · intro category document_date user o'
    unfold DocumentService.update_document
    dsimp only
    cases Doc.save w
      { doc with
        category := category
        document_date := document_date
        version := doc.version + 1 } now with
    | none => rfl
    | some d2 => rfl
  · intro category document_date user
    unfold DocumentService.update_document
    dsimp only
    cases hS : Doc.save w
      { doc with
        category := category
        document_date := document_date
        version := doc.version + 1 } now with
    | none =>
      intro h
      exact Bool.noConfusion h
    | some d2 =>
      intro _
      obtain ⟨fs, hd2⟩ := Doc.save_spec _ _ _ _ hS
      refine ⟨?_, rfl⟩
      rw [(relocate_doc_frame w d2 now o).2.1, hd2]

/-- C7 witness: with a present file, a clean filesystem, and a move that
fails, relocation logs once, returns `None`, attempted the move once, and the
enclosing update still bumps the version. -/
theorem relocate_error_handling_witness :
    ((relocate_document_file relocSelfWorld relocSelfDoc ⟨2024, 2, 1, 8, 0, 0⟩
        ⟨false, true, false, false⟩).errorLogs = 1 →
      (relocate_document_file relocSelfWorld relocSelfDoc ⟨2024, 2, 1, 8, 0, 0⟩
        ⟨false, true, false, false⟩).ret = none) ∧
    (relocate_document_file relocSelfWorld relocSelfDoc ⟨2024, 2, 1, 8, 0, 0⟩
        ⟨false, true, false, false⟩).errorLogs = 1 ∧
    (relocate_document_file relocSelfWorld relocSelfDoc ⟨2024, 2, 1, 8, 0, 0⟩
        ⟨false, true, false, false⟩).ret = none ∧
    (relocate_document_file relocSelfWorld relocSelfDoc ⟨2024, 2, 1, 8, 0, 0⟩
        ⟨false, true, false, false⟩).moveAttempts = 1 ∧
    (DocumentService.update_document relocSelfWorld relocSelfDoc
        (Category.root "ATK" "atk") ⟨2024, 3, 1⟩ 1 ⟨2024, 2, 1, 8, 0, 0⟩
        ⟨false, true, false, false⟩).raised = false ∧
    (DocumentService.update_document relocSelfWorld relocSelfDoc
        (Category.root "ATK" "atk") ⟨2024, 3, 1⟩ 1 ⟨2024, 2, 1, 8, 0, 0⟩
        ⟨false, true, false, false⟩).doc.version = relocSelfDoc.version + 1 := by
  have h := relocate_error_handling relocSelfWorld relocSelfDoc ⟨2024, 2, 1, 8, 0, 0⟩
    ⟨false, true, false, false⟩
  exact ⟨h.2.2.2.2.1, by decide, by decide, by decide, by decide,
    (h.2.2.2.2.2.2.2 (Category.root "ATK" "atk") ⟨2024, 3, 1⟩ 1 (by decide)).1⟩

/-! ### Path decomposition lemmas (towards C3) -/

theorem headSlashPart_append_basenameL (l : List Char) : headSlashPart l ++ basenameL l = l := by
  unfold headSlashPart basenameL
  rw [← List.reverse_append, List.takeWhile_append_dropWhile, List.reverse_reverse]

theorem slash_not_mem_basenameL (l : List Char) : '/' ∉ basenameL l := by
  intro h
  have := List.mem_takeWhile_imp (List.mem_reverse.1 h)
  simp at this

theorem headSlashPart_getLast? (l : List Char) :
    headSlashPart l = [] ∨ (headSlashPart l).getLast? = some '/' := by
  unfold headSlashPart
  cases hd : l.reverse.dropWhile (fun c => c != '/') with
  | nil => left; rfl
  | cons x t =>
    right
    have hx := List.head?_dropWhile_not (fun c => c != '/') l.reverse
    rw [hd] at hx
    simp only [List.head?_cons] at hx
    have hx' : x = '/' := by simpa using hx
    rw [List.getLast?_reverse, List.head?_cons, hx']

theorem rstripSlash_getLast? (l : List Char) :
    rstripSlash l = [] ∨ (rstripSlash l).getLast? ≠ some '/' := by
  unfold rstripSlash
  cases hd : l.reverse.dropWhile (fun c => c == '/') with
  | nil => left; rfl
  | cons x t =>
    right
    have hx := List.head?_dropWhile_not (fun c => c == '/') l.reverse
    rw [hd] at hx
    simp only [List.head?_cons] at hx
    have hx' : x ≠ '/' := by simpa using hx
    rw [List.getLast?_reverse, List.head?_cons]
    simp [hx']

/-- The three possible shapes of a `dirname` result: empty, all slashes, or
not ending in a slash. -/
theorem dirnameL_trichotomy (l : List Char) :
    dirnameL l = [] ∨ (dirnameL l).all (fun c => c == '/') = true ∨
      (dirnameL l).getLast? ≠ some '/' := by
  unfold dirnameL
  dsimp only
  split
  · next h =>
    rw [Bool.or_eq_true] at h
    rcases h with h1 | h1
    · left
      exact List.isEmpty_iff.1 h1
    · right; left
      exact h1
  · rcases rstripSlash_getLast? (headSlashPart l) with h1 | h1
    · left; exact h1
    · right; right; exact h1

theorem rstripSlash_append_slash (d : List Char) (hd : d.getLast? ≠ some '/') :
    rstripSlash (d ++ ['/']) = d := by
  unfold rstripSlash
  rw [List.reverse_append]
  simp only [List.reverse_singleton, List.singleton_append]
  rw [List.dropWhile_cons_of_pos (by decide)]
  cases hrev : d.reverse with
  | nil => simpa using congrArg List.reverse hrev
  | cons x t =>
    have hx : x ≠ '/' := by
      intro hc
      apply hd
      rw [List.getLast?_eq_head?_reverse, hrev, List.head?_cons, hc]
    rw [List.dropWhile_cons_of_neg (by simp [hx]), ← hrev, List.reverse_reverse]

/-- `os.path.dirname (os.path.join d f) = d` whenever `f` is a non-empty
slash-free component and `d` has the shape of a `dirname` result. -/
theorem dirnameL_joinL (d f : List Char) (hne : f ≠ []) (hf : '/' ∉ f)
    (hd : d = [] ∨ d.all (fun c => c == '/') = true ∨ d.getLast? ≠ some '/') :
    dirnameL (joinL d f) = d := by
  have hfhead : f.head? ≠ some '/' := by
    cases f with
    | nil => simp
    | cons x t =>
      simp only [List.head?_cons, ne_eq, Option.some.injEq]
      intro hc
      exact hf (by simp [hc])
  have hfdrop : f.reverse.dropWhile (fun c => c != '/') = [] := by
    rw [List.dropWhile_eq_nil_iff]
    intro x hx
    have : x ≠ '/' := fun hc => hf (List.mem_reverse.1 (hc ▸ hx))
    simp [this]
  by_cases hdnil : d = []
  · subst hdnil
    unfold joinL
    rw [if_neg (by simpa using hfhead), if_pos (by simp)]
    unfold dirnameL headSlashPart
    rw [List.nil_append, hfdrop]
    simp
  · rcases hd with hd | hd | hd
    · exact absurd hd hdnil
    · have hlast : d.getLast? = some '/' := by
        cases hgl : d.getLast? with
        | none => exact absurd (List.getLast?_eq_none_iff.1 hgl) hdnil
        | some c =>
          have : c ∈ d := List.mem_of_getLast?_eq_some hgl
          have := List.all_eq_true.1 hd _ this
          simpa using congrArg some (by simpa using this)
      unfold joinL
      rw [if_neg (by simpa using hfhead), if_pos (by simp [hlast])]
      have hhead : headSlashPart (d ++ f) = d := by
        unfold headSlashPart
        rw [List.reverse_append, dropWhile_append_all d.reverse
          (by intro a ha; have : a ≠ '/' := fun hc => hf (List.mem_reverse.1 (hc ▸ ha)); simp [this])]
        cases hrev : d.reverse with
        | nil => exact absurd (by simpa using congrArg List.reverse hrev) hdnil
        | cons x t =>
          have hx : x = '/' := by
            have hxd : x ∈ d := List.mem_reverse.1 (by rw [hrev]; simp)
            simpa using List.all_eq_true.1 hd _ hxd
          rw [List.dropWhile_cons_of_neg (by simp [hx]), ← hrev, List.reverse_reverse]
      unfold dirnameL
      rw [hhead, if_pos (by simp [hd])]
    · unfold joinL
      rw [if_neg (by simpa using hfhead), if_neg (by simp [hdnil, hd])]
      have hhead : headSlashPart (d ++ '/' :: f) = d ++ ['/'] := by
        unfold headSlashPart
        have : (d ++ '/' :: f).reverse = f.reverse ++ '/' :: d.reverse := by
          simp
        rw [this, dropWhile_append_all ('/' :: d.reverse)
          (by intro a ha; have : a ≠ '/' := fun hc => hf (List.mem_reverse.1 (hc ▸ ha)); simp [this])]
        rw [List.dropWhile_cons_of_neg (by decide)]
        simp
      unfold dirnameL
      rw [hhead]
      have hnotall : ((d ++ ['/']).all (fun c => c == '/')) = false := by
        cases hgl : d.getLast? with
        | none => exact absurd (List.getLast?_eq_none_iff.1 hgl) hdnil
        | some c =>
          have hcd : c ∈ d := List.mem_of_getLast?_eq_some hgl
          have hc : c ≠ '/' := fun hc => hd (by rw [hgl, hc])
          rw [Bool.eq_false_iff]
          intro hall
          exact hc (by simpa using List.all_eq_true.1 hall c (by simp [hcd]))
      rw [if_neg (by simp [hnotall])]
      exact rstripSlash_append_slash d hd

/-- `os.path.basename (os.path.join d f) = f` under the same conditions. -/
theorem basenameL_joinL (d f : List Char) (hne : f ≠ []) (hf : '/' ∉ f)
    (hd : d = [] ∨ d.all (fun c => c == '/') = true ∨ d.getLast? ≠ some '/') :
    basenameL (joinL d f) = f := by
  have hfhead : f.head? ≠ some '/' := by
    cases f with
    | nil => simp
    | cons x t =>
      simp only [List.head?_cons, ne_eq, Option.some.injEq]
      intro hc
      exact hf (by simp [hc])
  have hftake : f.reverse.takeWhile (fun c => c != '/') = f.reverse := by
    rw [List.takeWhile_eq_self_iff]
    intro x hx
    have : x ≠ '/' := fun hc => hf (List.mem_reverse.1 (hc ▸ hx))
    simp [this]
  by_cases hdnil : d = []
  · subst hdnil
    unfold joinL
    rw [if_neg (by simpa using hfhead), if_pos (by simp)]
    unfold basenameL
    rw [List.nil_append, hftake, List.reverse_reverse]
  · rcases hd with hd | hd | hd
    · exact absurd hd hdnil
    · have hlast : d.getLast? = some '/' := by
        cases hgl : d.getLast? with
        | none => exact absurd (List.getLast?_eq_none_iff.1 hgl) hdnil
        | some c =>
          have : c ∈ d := List.mem_of_getLast?_eq_some hgl
          have := List.all_eq_true.1 hd _ this
          simpa using congrArg some (by simpa using this)
      unfold joinL
      rw [if_neg (by simpa using hfhead), if_pos (by simp [hlast])]
      unfold basenameL
      rw [List.reverse_append, takeWhile_append_all d.reverse
        (by intro a ha; have : a ≠ '/' := fun hc => hf (List.mem_reverse.1 (hc ▸ ha)); simp [this])]
      cases hrev : d.reverse with
      | nil => exact absurd (by simpa using congrArg List.reverse hrev) hdnil
      | cons x t =>
        have hx : x = '/' := by
          have hxd : x ∈ d := List.mem_reverse.1 (by rw [hrev]; simp)
          simpa using List.all_eq_true.1 hd _ hxd
        rw [List.takeWhile_cons_of_neg (by simp [hx])]
        simp [hftake]
    · unfold joinL
      rw [if_neg (by simpa using hfhead), if_neg (by simp [hdnil, hd])]
      unfold basenameL
      have : (d ++ '/' :: f).reverse = f.reverse ++ '/' :: d.reverse := by simp
      rw [this, takeWhile_append_all ('/' :: d.reverse)
        (by intro a ha; have : a ≠ '/' := fun hc => hf (List.mem_reverse.1 (hc ▸ ha)); simp [this])]
      rw [List.takeWhile_cons_of_neg (by decide)]
      simp

/-! ### splitext lemmas (towards C3) -/

theorem splitextBase_of_not_mem {b : List Char} (h : '.' ∉ b) : splitextBase b = (b, []) := by
  unfold splitextBase
  have : b.reverse.takeWhile (fun c => c != '.') = b.reverse := by
    rw [List.takeWhile_eq_self_iff]
    intro x hx
    have : x ≠ '.' := fun hc => h (List.mem_reverse.1 (hc ▸ hx))
    simp [this]
  rw [this]
  simp

theorem splitextBase_split {root rest : List Char} (hrest : '.' ∉ rest)
    (hroot : ¬ (root.all (fun c => c == '.') = true)) :
    splitextBase (root ++ '.' :: rest) = (root, '.' :: rest) := by
  unfold splitextBase
  have hrev : (root ++ '.' :: rest).reverse = rest.reverse ++ '.' :: root.reverse := by simp
  have htake : (root ++ '.' :: rest).reverse.takeWhile (fun c => c != '.') = rest.reverse := by
    rw [hrev, takeWhile_append_all ('.' :: root.reverse)
      (by intro a ha; have : a ≠ '.' := fun hc => hrest (List.mem_reverse.1 (hc ▸ ha)); simp [this])]
    rw [List.takeWhile_cons_of_neg (by decide)]
    simp
  rw [htake]
  have hlen : (root ++ '.' :: rest).length = root.length + rest.length + 1 := by simp; omega
  rw [if_neg (by simp [hlen]; omega)]
  have htk : (root ++ '.' :: rest).take ((root ++ '.' :: rest).length - rest.reverse.length - 1)
      = root := by
    have : (root ++ '.' :: rest).length - rest.reverse.length - 1 = root.length := by
      simp [hlen]
      omega
    rw [this, List.take_left]
  rw [htk, if_neg hroot]
  simp

theorem splitextBase_nosplit {root rest : List Char} (hrest : '.' ∉ rest)
    (hroot : root.all (fun c => c == '.') = true) :
    splitextBase (root ++ '.' :: rest) = (root ++ '.' :: rest, []) := by
  unfold splitextBase
  have hrev : (root ++ '.' :: rest).reverse = rest.reverse ++ '.' :: root.reverse := by simp
  have htake : (root ++ '.' :: rest).reverse.takeWhile (fun c => c != '.') = rest.reverse := by
    rw [hrev, takeWhile_append_all ('.' :: root.reverse)
      (by intro a ha; have : a ≠ '.' := fun hc => hrest (List.mem_reverse.1 (hc ▸ ha)); simp [this])]
    rw [List.takeWhile_cons_of_neg (by decide)]
    simp
  rw [htake]
  have hlen : (root ++ '.' :: rest).length = root.length + rest.length + 1 := by simp; omega
  rw [if_neg (by simp [hlen]; omega)]
  have htk : (root ++ '.' :: rest).take ((root ++ '.' :: rest).length - rest.reverse.length - 1)
      = root := by
    have : (root ++ '.' :: rest).length - rest.reverse.length - 1 = root.length := by
      simp [hlen]
      omega
    rw [this, List.take_left]
  rw [htk, if_pos hroot]

/-- Every list splits at its last dot, when it has one. -/
theorem lastDot_decomposition (b : List Char) :
    '.' ∉ b ∨ ∃ root rest, b = root ++ '.' :: rest ∧ '.' ∉ rest := by
  by_cases h : '.' ∈ b
  · right
    have hdrop : b.reverse.dropWhile (fun c => c != '.') ≠ [] := by
      intro hc
      rw [List.dropWhile_eq_nil_iff] at hc
      have := hc '.' (List.mem_reverse.2 h)
      simp at this
    cases hd : b.reverse.dropWhile (fun c => c != '.') with
    | nil => exact absurd hd hdrop
    | cons x t =>
      have hx : x = '.' := by
        have := List.head?_dropWhile_not (fun c => c != '.') b.reverse
        rw [hd] at this
        simpa using this
      subst hx
      refine ⟨t.reverse, (b.reverse.takeWhile (fun c => c != '.')).reverse, ?_, ?_⟩
      · have hb : b.reverse.takeWhile (fun c => c != '.') ++ ('.' :: t) = b.reverse := by
          rw [← hd, List.takeWhile_append_dropWhile]
        calc b = b.reverse.reverse := by rw [List.reverse_reverse]
          _ = (b.reverse.takeWhile (fun c => c != '.') ++ ('.' :: t)).reverse := by rw [hb]
          _ = t.reverse ++ '.' :: (b.reverse.takeWhile (fun c => c != '.')).reverse := by simp
      · intro hc
        have := List.mem_takeWhile_imp (List.mem_reverse.1 hc)
        simp at this
  · left; exact h

/-- Inserting a non-empty dot-free suffix between stem and extension leaves
`splitext` pointing at the same extension. -/
theorem splitextBase_insert (b s : List Char) (hs : s ≠ []) (hsdot : '.' ∉ s) :
    splitextBase ((splitextBase b).1 ++ s ++ (splitextBase b).2)
      = ((splitextBase b).1 ++ s, (splitextBase b).2) := by
  rcases lastDot_decomposition b with h | ⟨root, rest, hb, hrest⟩
  · rw [splitextBase_of_not_mem h]
    have : '.' ∉ b ++ s := by
      intro hc
      rcases List.mem_append.1 hc with hc | hc
      · exact h hc
      · exact hsdot hc
    simpa using splitextBase_of_not_mem this
  · subst hb
    by_cases hall : root.all (fun c => c == '.') = true
    · rw [splitextBase_nosplit hrest hall]
      have hrs : '.' ∉ rest ++ s := by
        intro hc
        rcases List.mem_append.1 hc with hc | hc
        · exact hrest hc
        · exact hsdot hc
      have h2 := splitextBase_nosplit hrs hall
      have hre : (root ++ '.' :: rest) ++ s = root ++ '.' :: (rest ++ s) := by simp
      dsimp only
      rw [List.append_nil, hre]
      exact h2
    · rw [splitextBase_split hrest hall]
      have hall2 : ¬ ((root ++ s).all (fun c => c == '.') = true) := by
        intro hc
        cases s with
        | nil => exact hs rfl
        | cons y ys =>
          have hy : y ≠ '.' := fun h2 => hsdot (by simp [h2])
          have := List.all_eq_true.1 hc y (by simp)
          exact hy (by simpa using this)
      have h2 := splitextBase_split hrest hall2
      exact h2

/-- The stem and extension only contain characters of the input (or a dot). -/
theorem splitextBase_no_slash {b : List Char} (h : '/' ∉ b) :
    '/' ∉ (splitextBase b).1 ∧ '/' ∉ (splitextBase b).2 := by
  unfold splitextBase
  dsimp only
  split
  · exact ⟨h, by simp⟩
  · split
    · exact ⟨h, by simp⟩
    · constructor
      · intro hc
        exact h (List.take_subset _ _ hc)
      · intro hc
        rcases List.mem_cons.1 hc with hc | hc
        · exact absurd hc.symm (by decide)
        · exact h (List.mem_reverse.1 ((List.takeWhile_sublist _).subset (List.mem_reverse.1 hc)))

/-! ### The collision-suffix loop (towards C3) -/

theorem joinL_decomp (d f : List Char) (hf : f.head? ≠ some '/') :
    joinL d f = (if d.isEmpty || d.getLast? = some '/' then d else d ++ ['/']) ++ f := by
  unfold joinL
  rw [if_neg (by simpa using hf)]
  split
  · rfl
  · simp

theorem candidateName_ne_nil (stem : List Char) (c : Nat) (ext : List Char) :
    candidateName stem c ext ≠ [] := by
  unfold candidateName
  simp

theorem slash_not_mem_candidateName {stem ext : List Char} (hstem : '/' ∉ stem)
    (hext : '/' ∉ ext) (c : Nat) : '/' ∉ candidateName stem c ext := by
  unfold candidateName
  intro h
  rcases List.mem_append.1 h with h | h
  · exact hstem h
  · rcases List.mem_cons.1 h with h | h
    · exact absurd h.symm (by decide)
    · rcases List.mem_append.1 h with h | h
      · exact slash_not_mem_natToDec _ h
      · exact hext h

theorem candidateName_head {stem : List Char} (hstem : '/' ∉ stem) (c : Nat) (ext : List Char) :
    (candidateName stem c ext).head? ≠ some '/' := by
  unfold candidateName
  cases stem with
  | nil => simp
  | cons x t =>
    simp only [List.cons_append, List.head?_cons, ne_eq, Option.some.injEq]
    intro hc
    exact hstem (by simp [hc])

theorem candidateName_inj (stem ext : List Char) (c c' : Nat)
    (h : candidateName stem c ext = candidateName stem c' ext) : c = c' := by
  unfold candidateName at h
  have h1 := List.append_cancel_left h
  have h2 : natToDec c ++ ext = natToDec c' ++ ext := by
    injection h1
  exact natToDec_inj _ _ (List.append_cancel_right h2)

/-- The path `dir(p)/stem_k.ext` the collision loop proposes for counter `k`. -/
def uniqueCandidate (p : String) (k : Nat) : String :=
  ⟨joinL (dirnameL p.data) (candidateName (splitextBase (basenameL p.data)).1 k
    (splitextBase (basenameL p.data)).2)⟩

theorem uniqueCandidate_inj (p : String) (k k' : Nat)
    (h : uniqueCandidate p k = uniqueCandidate p k') : k = k' := by
  unfold uniqueCandidate at h
  rw [string_mk_inj] at h
  have hsl := splitextBase_no_slash (slash_not_mem_basenameL p.data)
  rw [joinL_decomp _ _ (candidateName_head hsl.1 k _),
    joinL_decomp _ _ (candidateName_head hsl.1 k' _)] at h
  exact candidateName_inj _ _ _ _ (List.append_cancel_left h)

theorem exists_free_candidate (E : List String) (p : String) :
    ∃ j, j ≤ E.length ∧ uniqueCandidate p (1 + j) ∉ E := by
  by_contra hc
  push_neg at hc
  have hS : ((Finset.range (E.length + 1)).image (fun j => uniqueCandidate p (1 + j))).card
      = E.length + 1 := by
    rw [Finset.card_image_of_injOn, Finset.card_range]
    intro a _ b _ hab
    have := uniqueCandidate_inj p (1 + a) (1 + b) hab
    omega
  have hsub : ((Finset.range (E.length + 1)).image (fun j => uniqueCandidate p (1 + j)))
      ⊆ E.toFinset := by
    intro x hx
    obtain ⟨j, hj, rfl⟩ := Finset.mem_image.1 hx
    have hj' := Finset.mem_range.1 hj
    exact List.mem_toFinset.2 (hc j (by omega))
  have := Finset.card_le_card hsub
  have := List.toFinset_card_le E
  omega

theorem uniqueLoop_spec (E : List String) (d stem ext : List Char) :
    ∀ fuel c, (∃ j, j < fuel ∧ (⟨joinL d (candidateName stem (c + j) ext)⟩ : String) ∉ E) →
    ∃ j, j < fuel ∧ uniqueLoop E d stem ext fuel c = ⟨joinL d (candidateName stem (c + j) ext)⟩ ∧
      (⟨joinL d (candidateName stem (c + j) ext)⟩ : String) ∉ E ∧
      ∀ i, i < j → (⟨joinL d (candidateName stem (c + i) ext)⟩ : String) ∈ E := by
  intro fuel
  induction fuel with
  | zero =>
    rintro c ⟨j, hj, _⟩
    omega
  | succ fuel ih =>
    rintro c ⟨j, hj, hfree⟩
    by_cases hc : (⟨joinL d (candidateName stem c ext)⟩ : String) ∈ E
    · have hstep : uniqueLoop E d stem ext (fuel + 1) c
          = if (⟨joinL d (candidateName stem c ext)⟩ : String) ∈ E then
              uniqueLoop E d stem ext fuel (c + 1)
            else ⟨joinL d (candidateName stem c ext)⟩ := rfl
      have hloop : uniqueLoop E d stem ext (fuel + 1) c = uniqueLoop E d stem ext fuel (c + 1) := by
        rw [hstep, if_pos hc]
      cases j with
      | zero =>
        rw [Nat.add_zero] at hfree
        exact absurd hc hfree
      | succ j' =>
        have harith : c + (j' + 1) = c + 1 + j' := by omega
        rw [harith] at hfree
        obtain ⟨k, hk, heq, hfree', hall⟩ := ih (c + 1) ⟨j', by omega, hfree⟩
        refine ⟨k + 1, by omega, ?_, ?_, ?_⟩
        · rw [hloop, show c + (k + 1) = c + 1 + k by omega]
          exact heq
        · rw [show c + (k + 1) = c + 1 + k by omega]
          exact hfree'
        · intro i hi
          cases i with
          | zero => rw [Nat.add_zero]; exact hc
          | succ i' =>
            rw [show c + (i' + 1) = c + 1 + i' by omega]
            exact hall i' (by omega)
    · have hstep : uniqueLoop E d stem ext (fuel + 1) c
          = if (⟨joinL d (candidateName stem c ext)⟩ : String) ∈ E then
              uniqueLoop E d stem ext fuel (c + 1)
            else ⟨joinL d (candidateName stem c ext)⟩ := rfl
      have hloop : uniqueLoop E d stem ext (fuel + 1) c = ⟨joinL d (candidateName stem c ext)⟩ := by
        rw [hstep, if_neg hc]
      refine ⟨0, by omega, ?_, ?_, ?_⟩
      · rw [Nat.add_zero]; exact hloop
      · rw [Nat.add_zero]; exact hc
      · intro i hi; omega

/-- When `p` collides, `ensure_unique_filepath` returns the candidate with the
least positive counter that is free, all smaller counters being taken. -/
theorem ensure_unique_spec_of_mem (E : List String) (p : String) (h : p ∈ E) :
    ∃ k, 0 < k ∧ ensure_unique_filepath E p = uniqueCandidate p k ∧
      uniqueCandidate p k ∉ E ∧ ∀ i, 0 < i → i < k → uniqueCandidate p i ∈ E := by
  obtain ⟨j, hj, hfree⟩ := exists_free_candidate E p
  obtain ⟨k, hk, heq, hfree', hall⟩ :=
    uniqueLoop_spec E (dirnameL p.data) (splitextBase (basenameL p.data)).1
      (splitextBase (basenameL p.data)).2 (E.length + 1) 1 ⟨j, by omega, hfree⟩
  refine ⟨1 + k, by omega, ?_, hfree', ?_⟩
  · unfold ensure_unique_filepath
    rw [if_pos h]
    exact heq
  · intro i hi0 hik
    have := hall (i - 1) (by omega)
    rw [show 1 + (i - 1) = i by omega] at this
    exact this

theorem ensure_unique_eq_of_not_mem (E : List String) (p : String) (h : p ∉ E) :
    ensure_unique_filepath E p = p := by
  unfold ensure_unique_filepath
  rw [if_neg h]

theorem ensure_unique_not_mem (E : List String) (p : String) :
    ensure_unique_filepath E p ∉ E := by
  by_cases h : p ∈ E
  · obtain ⟨k, _, heq, hfree, _⟩ := ensure_unique_spec_of_mem E p h
    rw [heq]
    exact hfree
  · rw [ensure_unique_eq_of_not_mem E p h]
    exact h

theorem ensure_unique_dirname (E : List String) (p : String) :
    dirname (ensure_unique_filepath E p) = dirname p := by
  by_cases h : p ∈ E
  · obtain ⟨k, _, heq, _, _⟩ := ensure_unique_spec_of_mem E p h
    rw [heq]
    unfold uniqueCandidate dirname
    rw [string_mk_inj]
    have hsl := splitextBase_no_slash (slash_not_mem_basenameL p.data)
    exact dirnameL_joinL _ _ (candidateName_ne_nil _ _ _)
      (slash_not_mem_candidateName hsl.1 hsl.2 k) (dirnameL_trichotomy p.data)
  · rw [ensure_unique_eq_of_not_mem E p h]

theorem ensure_unique_ext (E : List String) (p : String) :
    (splitext (ensure_unique_filepath E p)).2 = (splitext p).2 := by
  by_cases h : p ∈ E
  · obtain ⟨k, _, heq, _, _⟩ := ensure_unique_spec_of_mem E p h
    rw [heq]
    have hsl := splitextBase_no_slash (slash_not_mem_basenameL p.data)
    have hbase : basenameL (uniqueCandidate p k).data
        = candidateName (splitextBase (basenameL p.data)).1 k
            (splitextBase (basenameL p.data)).2 :=
      basenameL_joinL _ _ (candidateName_ne_nil _ _ _)
        (slash_not_mem_candidateName hsl.1 hsl.2 k) (dirnameL_trichotomy p.data)
    have e1 : (splitext (uniqueCandidate p k)).2
        = ⟨(splitextBase (basenameL (uniqueCandidate p k).data)).2⟩ := by
      unfold splitext splitextL
      dsimp only
    have e2 : (splitext p).2 = ⟨(splitextBase (basenameL p.data)).2⟩ := by
      unfold splitext splitextL
      dsimp only
    have hcand : candidateName (splitextBase (basenameL p.data)).1 k
        (splitextBase (basenameL p.data)).2
        = (splitextBase (basenameL p.data)).1 ++ ('_' :: natToDec k) ++
          (splitextBase (basenameL p.data)).2 := by
      unfold candidateName
      simp
    rw [e1, e2, hbase, hcand, splitextBase_insert _ _ (by simp) (by
      intro hc
      rcases List.mem_cons.1 hc with hc | hc
      · exact absurd hc.symm (by decide)
      · exact dot_not_mem_natToDec _ hc)]
  · rw [ensure_unique_eq_of_not_mem E p h]

/-- C3: `ensure_unique_filepath` returns its argument when the path does not
exist; otherwise it returns `dir(p)/stem_k.ext` for the least positive
counter `k` whose candidate does not exist (counters tried in order 1, 2, …);
in all cases the result does not exist and keeps the directory and extension
of the input. -/
theorem ensure_unique_filepath_spec (E : List String) (p : String) :
    (p ∉ E → ensure_unique_filepath E p = p) ∧
    (p ∈ E → ∃ k, 0 < k ∧ ensure_unique_filepath E p = uniqueCandidate p k ∧
      uniqueCandidate p k ∉ E ∧ ∀ i, 0 < i → i < k → uniqueCandidate p i ∈ E) ∧
    ensure_unique_filepath E p ∉ E ∧
    dirname (ensure_unique_filepath E p) = dirname p ∧
    (splitext (ensure_unique_filepath E p)).2 = (splitext p).2 :=
  ⟨ensure_unique_eq_of_not_mem E p, ensure_unique_spec_of_mem E p,
    ensure_unique_not_mem E p, ensure_unique_dirname E p, ensure_unique_ext E p⟩

/-- C3 witness: with `/m/doc.pdf` and `/m/doc_1.pdf` taken, the collision
policy lands on `/m/doc_2.pdf`, which does not exist and keeps the directory
and the `.pdf` extension. -/
theorem ensure_unique_filepath_spec_witness :
    ("/m/doc.pdf" : String) ∈ (["/m/doc.pdf", "/m/doc_1.pdf"] : List String) ∧
    ensure_unique_filepath ["/m/doc.pdf", "/m/doc_1.pdf"] "/m/doc.pdf" = "/m/doc_2.pdf" ∧
    ensure_unique_filepath ["/m/doc.pdf", "/m/doc_1.pdf"] "/m/doc.pdf"
      ∉ (["/m/doc.pdf", "/m/doc_1.pdf"] : List String) ∧
    dirname (ensure_unique_filepath ["/m/doc.pdf", "/m/doc_1.pdf"] "/m/doc.pdf")
      = dirname "/m/doc.pdf" ∧
    (splitext (ensure_unique_filepath ["/m/doc.pdf", "/m/doc_1.pdf"] "/m/doc.pdf")).2
      = (splitext "/m/doc.pdf").2 := by
  have h := ensure_unique_filepath_spec ["/m/doc.pdf", "/m/doc_1.pdf"] "/m/doc.pdf"
  exact ⟨by decide, by decide, h.2.2.1, h.2.2.2.1, h.2.2.2.2⟩

/-! ### C8: determinism of filename and path generation -/

/-- C8 counterexample: the initial upload path depends on the wall clock —
the same document and filename stored one second apart land at different
paths, because `document_upload_path` embeds a `datetime.now()` timestamp. -/
theorem upload_path_clock_counterexample :
    document_upload_path (Category.root "ATK" "atk") ⟨2024, 1, 15⟩ "scan.pdf"
        ⟨2024, 1, 15, 12, 0, 0⟩
      ≠ document_upload_path (Category.root "ATK" "atk") ⟨2024, 1, 15⟩ "scan.pdf"
        ⟨2024, 1, 15, 12, 0, 1⟩ := by
  decide

theorem destination_display_congr (spd1 spd2 : SPDInfo)
    (h1 : spd1.destination = spd2.destination)
    (h2 : spd1.destination_other = spd2.destination_other) :
    spd1.get_destination_display_full = spd2.get_destination_display_full := by
  unfold SPDInfo.get_destination_display_full
  rw [h1, h2]

/-- C8 (amended): filename generation, the storage-path rule and relocation
are deterministic in the metadata: two documents agreeing on the relevant
metadata produce identical names, and the relocation outcome (returned path
and filesystem) does not depend on the clock; only the *initial upload* path
additionally depends on the current wall-clock time. -/
theorem deterministic_generation_amended :
    (∀ (d1 d2 : Doc) (spd1 spd2 : SPDInfo),
      d1.document_date = d2.document_date →
      spd1.employee.name = spd2.employee.name →
      spd1.destination = spd2.destination →
      spd1.destination_other = spd2.destination_other →
      generate_spd_filename d1 spd1 = generate_spd_filename d2 spd2) ∧
    (∀ d1 d2 : Doc, d1.category = d2.category → d1.document_date = d2.document_date →
      generate_document_filename d1 = generate_document_filename d2) ∧
    (∀ (cp1 cp2 : String) (dt1 dt2 : Date) (fn : String), cp1 = cp2 → dt1 = dt2 →
      FilePathBuilder.build_upload_path cp1 dt1 fn = FilePathBuilder.build_upload_path cp2 dt2 fn) ∧
    (∀ (w : World) (doc : Doc) (o : Oracle) (now1 now2 : DateTime),
      (relocate_document_file w doc now1 o).ret = (relocate_document_file w doc now2 o).ret ∧
      (relocate_document_file w doc now1 o).world = (relocate_document_file w doc now2 o).world) := by
  refine ⟨?_, ?_, ?_, ?_⟩
  · intro d1 d2 spd1 spd2 hdate hname hdst hother
    unfold generate_spd_filename
    rw [hdate, hname, destination_display_congr spd1 spd2 hdst hother]
  · intro d1 d2 hcat hdate
    unfold generate_document_filename
    rw [hcat, hdate]
  · intro cp1 cp2 dt1 dt2 fn h1 h2
    rw [h1, h2]
  · intro w doc o now1 now2
    unfold relocate_document_file
    cases doc.file with
    | none => exact ⟨rfl, rfl⟩
    | some nm =>
      dsimp only
      split
      · exact ⟨rfl, rfl⟩
      · cases hyf : DateFormat.get_folder_path doc.document_date with
        | none => exact ⟨rfl, rfl⟩
        | some yf =>
          dsimp only
          split
          · exact ⟨rfl, rfl⟩
          · cases hspd : doc.spd_info with
            | some spd =>
              dsimp only
              split
              · split
                · split
                  · exact ⟨rfl, rfl⟩
                  · exact relocSave_pair _ _ _ _ _ _
                · exact ⟨rfl, rfl⟩
              · split
                · split
                  · exact ⟨rfl, rfl⟩
                  · exact relocSave_pair _ _ _ _ _ _
                · exact ⟨rfl, rfl⟩
            | none =>
              dsimp only
              split
              · split
                · split
                  · exact ⟨rfl, rfl⟩
                  · exact relocSave_pair _ _ _ _ _ _
                · exact ⟨rfl, rfl⟩
              · split
                · split
                  · exact ⟨rfl, rfl⟩
                  · exact relocSave_pair _ _ _ _ _ _
                · exact ⟨rfl, rfl⟩

/-- C8 witness: two documents differing in id, version and audit fields but
with the same category and date generate the same filename, and the
relocation outcome at two different clock readings is identical. -/
theorem deterministic_generation_amended_witness :
    ((⟨1, none, 0, ⟨2024, 1, 15⟩, Category.root "ATK" "atk", 1, ⟨2024, 1, 1, 0, 0, 0⟩,
        ⟨2024, 1, 1, 0, 0, 0⟩, 1, false, none, none⟩ : Doc).category
      = (⟨2, none, 7, ⟨2024, 1, 15⟩, Category.root "ATK" "atk", 3, ⟨2024, 2, 1, 0, 0, 0⟩,
        ⟨2024, 2, 2, 0, 0, 0⟩, 4, true, none, none⟩ : Doc).category) ∧
    ((⟨1, none, 0, ⟨2024, 1, 15⟩, Category.root "ATK" "atk", 1, ⟨2024, 1, 1, 0, 0, 0⟩,
        ⟨2024, 1, 1, 0, 0, 0⟩, 1, false, none, none⟩ : Doc).document_date
      = (⟨2, none, 7, ⟨2024, 1, 15⟩, Category.root "ATK" "atk", 3, ⟨2024, 2, 1, 0, 0, 0⟩,
        ⟨2024, 2, 2, 0, 0, 0⟩, 4, true, none, none⟩ : Doc).document_date) ∧
    generate_document_filename
        ⟨1, none, 0, ⟨2024, 1, 15⟩, Category.root "ATK" "atk", 1, ⟨2024, 1, 1, 0, 0, 0⟩,
          ⟨2024, 1, 1, 0, 0, 0⟩, 1, false, none, none⟩
      = generate_document_filename
        ⟨2, none, 7, ⟨2024, 1, 15⟩, Category.root "ATK" "atk", 3, ⟨2024, 2, 1, 0, 0, 0⟩,
          ⟨2024, 2, 2, 0, 0, 0⟩, 4, true, none, none⟩ ∧
    (relocate_document_file relocSelfWorld relocSelfDoc ⟨2024, 2, 1, 8, 0, 0⟩
        ⟨false, false, false, false⟩).ret
      = (relocate_document_file relocSelfWorld relocSelfDoc ⟨2025, 6, 7, 9, 30, 0⟩
        ⟨false, false, false, false⟩).ret := by
  refine ⟨rfl, rfl, ?_, ?_⟩
  · exact (deterministic_generation_amended.2.1 _ _ rfl rfl)
  · exact (deterministic_generation_amended.2.2.2 relocSelfWorld relocSelfDoc
      ⟨false, false, false, false⟩ ⟨2024, 2, 1, 8, 0, 0⟩ ⟨2025, 6, 7, 9, 30, 0⟩).1

/-! ### Slash-freeness of generated names and folder components (towards C9) -/

theorem slash_not_mem_clean (s : String) : '/' ∉ (_clean_filename s).data := by
  rw [_clean_filename_eq]
  intro h
  have := List.of_mem_filter h
  simp at this

theorem slash_not_mem_pad2 (n : Nat) : '/' ∉ pad2 n := by
  unfold pad2
  split
  · intro h
    rcases List.mem_cons.1 h with h | h
    · exact absurd h.symm (by decide)
    · exact slash_not_mem_natToDec n h
  · exact slash_not_mem_natToDec n

theorem slash_not_mem_strftimeDate (d : Date) : '/' ∉ (strftimeDate d).data := by
  unfold strftimeDate
  intro h
  rcases List.mem_append.1 h with h | h
  · exact slash_not_mem_natToDec _ h
  · rcases List.mem_cons.1 h with h | h
    · exact absurd h.symm (by decide)
    · rcases List.mem_append.1 h with h | h
      · exact slash_not_mem_pad2 _ h
      · rcases List.mem_cons.1 h with h | h
        · exact absurd h.symm (by decide)
        · exact slash_not_mem_pad2 _ h

theorem not_mem_append2 {c : Char} {a b : List Char} (ha : c ∉ a) (hb : c ∉ b) :
    c ∉ a ++ b := by
  intro h
  rcases List.mem_append.1 h with h | h
  · exact ha h
  · exact hb h

theorem generate_document_filename_facts (doc : Doc) :
    '/' ∉ (generate_document_filename doc).data ∧ (generate_document_filename doc).data ≠ [] := by
  unfold generate_document_filename
  constructor
  · simp only [String.data_append]
    exact not_mem_append2 (not_mem_append2 (not_mem_append2
      (slash_not_mem_clean _) (by decide)) (slash_not_mem_strftimeDate _)) (by decide)
  · simp [String.data_append]

theorem generate_spd_filename_facts (doc : Doc) (spd : SPDInfo) :
    '/' ∉ (generate_spd_filename doc spd).data ∧ (generate_spd_filename doc spd).data ≠ [] := by
  unfold generate_spd_filename
  constructor
  · simp only [String.data_append]
    exact not_mem_append2 (not_mem_append2 (not_mem_append2 (not_mem_append2 (not_mem_append2
      (not_mem_append2 (by decide) (slash_not_mem_clean _)) (by decide))
      (slash_not_mem_clean _)) (by decide)) (slash_not_mem_strftimeDate _)) (by decide)
  · simp [String.data_append]

theorem spd_fallback_filename_facts (doc : Doc) :
    '/' ∉ ("SPD_" ++ strftimeDate doc.document_date ++ "_" ++
        (⟨natToDec doc.id⟩ : String) ++ ".pdf").data ∧
      ("SPD_" ++ strftimeDate doc.document_date ++ "_" ++
        (⟨natToDec doc.id⟩ : String) ++ ".pdf").data ≠ [] := by
  constructor
  · simp only [String.data_append]
    exact not_mem_append2 (not_mem_append2 (not_mem_append2 (not_mem_append2
      (by decide) (slash_not_mem_strftimeDate _)) (by decide))
      (slash_not_mem_natToDec _)) (by decide)
  · simp [String.data_append]

theorem get_month_name_facts :
    ∀ m s, IndonesianMonth.get_month_name m = some s → s.data ≠ [] ∧ '/' ∉ s.data := by
  intro m s h
  unfold IndonesianMonth.get_month_name at h
  split at h
  all_goals try exact Option.noConfusion h
  all_goals injection h with h2
  all_goals subst h2
  all_goals exact ⟨by decide, by decide⟩

theorem get_month_folder_facts :
    ∀ m s, IndonesianMonth.get_month_folder m = some s → s.data ≠ [] ∧ '/' ∉ s.data := by
  intro m s h
  unfold IndonesianMonth.get_month_folder at h
  cases hn : IndonesianMonth.get_month_name m with
  | none => rw [hn] at h; cases h
  | some nm =>
    rw [hn] at h
    simp only [Option.map_some'] at h
    obtain ⟨hne, hns⟩ := get_month_name_facts m nm hn
    injection h with h2
    subst h2
    constructor
    · simp
    · intro hc
      rcases List.mem_append.1 hc with hc | hc
      · exact slash_not_mem_pad2 _ hc
      · rcases List.mem_cons.1 hc with hc | hc
        · exact absurd hc.symm (by decide)
        · exact hns hc

theorem get_folder_path_facts (d : Date) (yf : String × String)
    (h : DateFormat.get_folder_path d = some yf) : yf.2.data ≠ [] ∧ '/' ∉ yf.2.data := by
  unfold DateFormat.get_folder_path at h
  cases hm : IndonesianMonth.get_month_folder d.month with
  | none => rw [hm] at h; cases h
  | some mf =>
    rw [hm] at h
    simp only [Option.map_some'] at h
    have hf := get_month_folder_facts d.month mf hm
    injection h with h2
    subst h2
    exact hf

/-! ### Shape of the relocation directory and target paths (towards C9) -/

theorem relDir_facts (cp y mf : String) (hmf : mf.data ≠ []) (hmfs : '/' ∉ mf.data) :
    ("uploads/" ++ cp ++ "/" ++ y ++ "/" ++ mf).data ≠ [] ∧
    ("uploads/" ++ cp ++ "/" ++ y ++ "/" ++ mf).data.head? ≠ some '/' ∧
    ("uploads/" ++ cp ++ "/" ++ y ++ "/" ++ mf).data.getLast? ≠ some '/' := by
  refine ⟨by simp [String.data_append], ?_, ?_⟩
  · simp [String.data_append, List.head?_append]
  · simp only [String.data_append, List.getLast?_append]
    cases hgl : mf.data.getLast? with
    | none => exact absurd (List.getLast?_eq_none_iff.1 hgl) hmf
    | some c =>
      have hc : c ≠ '/' := fun hcc => hmfs (hcc ▸ List.mem_of_getLast?_eq_some hgl)
      simp [hgl, Option.or, hc]

theorem pathJoin_media_data (rd : String) (hh : rd.data.head? ≠ some '/') :
    (pathJoin MEDIA_ROOT rd).data = "/media".data ++ '/' :: rd.data := by
  unfold pathJoin MEDIA_ROOT joinL
  rw [if_neg (by simpa using hh), if_neg (by decide)]

theorem pathJoin_media_getLast? (rd : String) (hh : rd.data.head? ≠ some '/')
    (hne : rd.data ≠ []) :
    (pathJoin MEDIA_ROOT rd).data.getLast? = rd.data.getLast? := by
  rw [pathJoin_media_data rd hh]
  rw [show ('/' :: rd.data) = ['/'] ++ rd.data from rfl, ← List.append_assoc, List.getLast?_append]
  cases hgl : rd.data.getLast? with
  | none => exact absurd (List.getLast?_eq_none_iff.1 hgl) hne
  | some c => simp [Option.or]

/-- The relative path the database stores corresponds exactly to the absolute
path the file was moved to. -/
theorem docFilePath_join_eq (rd : String) (g : List Char) (hh : rd.data.head? ≠ some '/')
    (hne : rd.data ≠ []) (hlast : rd.data.getLast? ≠ some '/')
    (hg : '/' ∉ g) (hgne : g ≠ []) :
    docFilePath (rd ++ "/" ++ ⟨g⟩) = pathJoin (pathJoin MEDIA_ROOT rd) ⟨g⟩ := by
  have hrddata : (rd ++ "/" ++ (⟨g⟩ : String)).data = rd.data ++ '/' :: g := by
    simp [String.data_append]
  have hghead : ([] ++ g : List Char).head? ≠ some '/' := by
    cases g with
    | nil => simp
    | cons x t =>
      simp only [List.nil_append, List.head?_cons, ne_eq, Option.some.injEq]
      intro hc
      exact hg (by simp [hc])
  have hghead' : (g : List Char).head? ≠ some '/' := by simpa using hghead
  have h1 : (docFilePath (rd ++ "/" ++ ⟨g⟩)).data
      = "/media".data ++ '/' :: (rd.data ++ '/' :: g) := by
    unfold docFilePath
    rw [show (rd ++ "/" ++ (⟨g⟩ : String)) = (⟨rd.data ++ '/' :: g⟩ : String) from
      (congrArg String.mk hrddata : (⟨(rd ++ "/" ++ (⟨g⟩ : String)).data⟩ : String) = _)]
    apply pathJoin_media_data
    cases hrd : rd.data with
    | nil => exact absurd hrd hne
    | cons x t =>
      simp only [hrd, List.cons_append, List.head?_cons, ne_eq, Option.some.injEq]
      intro hc
      apply hh
      rw [hrd, List.head?_cons, hc]
  have h2 : (pathJoin (pathJoin MEDIA_ROOT rd) (⟨g⟩ : String)).data
      = ("/media".data ++ '/' :: rd.data) ++ '/' :: g := by
    show joinL (pathJoin MEDIA_ROOT rd).data g = _
    rw [pathJoin_media_data rd hh]
    unfold joinL
    rw [if_neg (by simpa using hghead'), if_neg ?hcond]
    case hcond =>
      intro hc
      rw [Bool.or_eq_true] at hc
      rcases hc with hc | hc
      · simp at hc
      · rw [decide_eq_true_iff] at hc
        rw [show ('/' :: rd.data) = ['/'] ++ rd.data from rfl, ← List.append_assoc,
          List.getLast?_append] at hc
        cases hgl : rd.data.getLast? with
        | none => exact absurd (List.getLast?_eq_none_iff.1 hgl) hne
        | some c =>
          rw [hgl] at hc
          simp only [Option.or] at hc
          exact hlast (by rw [hgl, hc])
  apply String.ext
  rw [h1, h2]
  simp

/-! ### Filesystem bookkeeping around a move (towards C9) -/

theorem makedirs_files (w : World) (d : String) : (makedirs w d).files = w.files := rfl

theorem cleanupOldDirs_files (w : World) (d : String) (o : Oracle) :
    (cleanupOldDirs w d o).files = w.files := by
  unfold cleanupOldDirs
  dsimp only
  repeat' split
  all_goals rfl

theorem sizeOfPath_congr (w1 w2 : World) (p : String) (h : w1.files = w2.files) :
    sizeOfPath w1 p = sizeOfPath w2 p := by
  unfold sizeOfPath
  rw [h]

theorem sizeOfPath_none_of_not_exists (w : World) (p : String)
    (h : existsPath w p = false) : sizeOfPath w p = none := by
  unfold existsPath at h
  rw [Bool.or_eq_false_iff] at h
  have hnone : w.files.find? (fun e => e.1 == p) = none := by
    rw [List.find?_eq_none]
    intro x hx hpx
    have hany : w.files.any (fun e => e.1 == p) = true := List.any_eq_true.2 ⟨x, hx, hpx⟩
    rw [h.1] at hany
    cases hany
  unfold sizeOfPath
  rw [hnone]
  rfl

/-- After the move, the new path holds a file of exactly the moved size: the
target was free beforehand, and the directory pruning never touches files. -/
theorem sizeOfPath_after_move (w1 : World) (old_path np : String) (sz : Nat)
    (oldDir : String) (o : Oracle) (hfree : np ∉ allPaths w1) :
    sizeOfPath (cleanupOldDirs
        { w1 with files := (w1.files.filter (fun e => e.1 ≠ old_path)) ++ [(np, sz)] }
        oldDir o) np = some sz := by
  rw [sizeOfPath_congr _ _ _ (cleanupOldDirs_files _ _ _)]
  unfold sizeOfPath
  dsimp only
  rw [List.find?_append]
  have h1 : (w1.files.filter (fun e => e.1 ≠ old_path)).find? (fun e => e.1 == np) = none := by
    rw [List.find?_eq_none]
    intro x hx hpx
    have hxw : x ∈ w1.files := List.mem_of_mem_filter hx
    have hne : x.1 ≠ np := by
      intro hc
      apply hfree
      unfold allPaths
      exact List.mem_append.2 (Or.inl (hc ▸ List.mem_map_of_mem _ hxw))
    exact hne (by simpa using hpx)
  rw [h1]
  simp

/-- `ensure_unique_filepath` applied to `dir/name` always yields `dir/name2`
for some non-empty slash-free `name2`, and `basename` recovers `name2`. -/
theorem ensure_unique_join_shape (E : List String) (nd nf : String)
    (hd : nd.data = [] ∨ nd.data.all (fun c => c == '/') = true ∨ nd.data.getLast? ≠ some '/')
    (hnf : '/' ∉ nf.data) (hnfne : nf.data ≠ []) :
    ∃ g : List Char, '/' ∉ g ∧ g ≠ [] ∧
      ensure_unique_filepath E (pathJoin nd nf) = ⟨joinL nd.data g⟩ ∧
      (basename (ensure_unique_filepath E (pathJoin nd nf))).data = g := by
  have hdir : dirnameL (pathJoin nd nf).data = nd.data := dirnameL_joinL _ _ hnfne hnf hd
  have hbase : basenameL (pathJoin nd nf).data = nf.data := basenameL_joinL _ _ hnfne hnf hd
  by_cases hmem : (pathJoin nd nf) ∈ E
  · obtain ⟨k, hk0, heq, _, _⟩ := ensure_unique_spec_of_mem E _ hmem
    have hsl := splitextBase_no_slash (slash_not_mem_basenameL (pathJoin nd nf).data)
    refine ⟨candidateName (splitextBase (basenameL (pathJoin nd nf).data)).1 k
        (splitextBase (basenameL (pathJoin nd nf).data)).2,
      slash_not_mem_candidateName hsl.1 hsl.2 k, candidateName_ne_nil _ _ _, ?_, ?_⟩
    · rw [heq]
      unfold uniqueCandidate
      rw [hdir]
    · rw [heq]
      unfold uniqueCandidate basename
      dsimp only
      rw [hdir]
      exact basenameL_joinL _ _ (candidateName_ne_nil _ _ _)
        (slash_not_mem_candidateName hsl.1 hsl.2 k) hd
  · rw [ensure_unique_eq_of_not_mem E _ hmem]
    exact ⟨nf.data, hnf, hnfne, rfl, hbase⟩

/-- The relative path stored in the database (`relDir/basename new_path`)
denotes, under MEDIA_ROOT, exactly the absolute path the file was moved to. -/
theorem docFilePath_new_relative (E : List String) (relDir nf : String)
    (hrdh : relDir.data.head? ≠ some '/') (hrdne : relDir.data ≠ [])
    (hrdl : relDir.data.getLast? ≠ some '/')
    (hnf : '/' ∉ nf.data) (hnfne : nf.data ≠ []) :
    docFilePath (relDir ++ "/" ++ basename (ensure_unique_filepath E
        (pathJoin (pathJoin MEDIA_ROOT relDir) nf)))
      = ensure_unique_filepath E (pathJoin (pathJoin MEDIA_ROOT relDir) nf) := by
  have hndl : (pathJoin MEDIA_ROOT relDir).data.getLast? ≠ some '/' := by
    rw [pathJoin_media_getLast? relDir hrdh hrdne]
    exact hrdl
  obtain ⟨g, hg, hgne, hpeq, hbg⟩ := ensure_unique_join_shape E (pathJoin MEDIA_ROOT relDir) nf
    (Or.inr (Or.inr hndl)) hnf hnfne
  have hbs : basename (ensure_unique_filepath E (pathJoin (pathJoin MEDIA_ROOT relDir) nf))
      = (⟨g⟩ : String) := String.ext hbg
  rw [hbs, docFilePath_join_eq relDir g hrdh hrdne hrdl hg hgne]
  exact hpeq.symm

/-- After a successful move, the re-`save` inside the `try` succeeds (the
moved file is on disk) and the document keeps its `file_size`, provided the
old stored size agreed with the physical file. -/
theorem save_moved_file_size (w : World) (doc : Doc) (now : DateTime) (o : Oracle)
    (relDir nf old_path oldDir : String)
    (hrdh : relDir.data.head? ≠ some '/') (hrdne : relDir.data ≠ [])
    (hrdl : relDir.data.getLast? ≠ some '/')
    (hnf : '/' ∉ nf.data) (hnfne : nf.data ≠ [])
    (hsz : sizeOfPath w old_path = some doc.file_size) :
    (match Doc.save
      (cleanupOldDirs
        { makedirs w (pathJoin MEDIA_ROOT relDir) with
          files := ((makedirs w (pathJoin MEDIA_ROOT relDir)).files.filter
              (fun e : String × Nat => e.1 ≠ old_path)) ++
            [(ensure_unique_filepath (allPaths (makedirs w (pathJoin MEDIA_ROOT relDir)))
                (pathJoin (pathJoin MEDIA_ROOT relDir) nf),
              (sizeOfPath (makedirs w (pathJoin MEDIA_ROOT relDir)) old_path).getD 0)] }
        oldDir o)
      { doc with file := some (relDir ++ "/" ++ basename (ensure_unique_filepath
          (allPaths (makedirs w (pathJoin MEDIA_ROOT relDir)))
          (pathJoin (pathJoin MEDIA_ROOT relDir) nf))) }
      now with
    | none =>
      (⟨cleanupOldDirs
          { makedirs w (pathJoin MEDIA_ROOT relDir) with
            files := ((makedirs w (pathJoin MEDIA_ROOT relDir)).files.filter
                (fun e : String × Nat => e.1 ≠ old_path)) ++
              [(ensure_unique_filepath (allPaths (makedirs w (pathJoin MEDIA_ROOT relDir)))
                  (pathJoin (pathJoin MEDIA_ROOT relDir) nf),
                (sizeOfPath (makedirs w (pathJoin MEDIA_ROOT relDir)) old_path).getD 0)] }
          oldDir o,
        { doc with file := some (relDir ++ "/" ++ basename (ensure_unique_filepath
            (allPaths (makedirs w (pathJoin MEDIA_ROOT relDir)))
            (pathJoin (pathJoin MEDIA_ROOT relDir) nf))) },
        none, 1, 1, 1⟩ : RelocResult)
    | some doc2 =>
      if o.saveFail then
        (⟨cleanupOldDirs
            { makedirs w (pathJoin MEDIA_ROOT relDir) with
              files := ((makedirs w (pathJoin MEDIA_ROOT relDir)).files.filter
                  (fun e : String × Nat => e.1 ≠ old_path)) ++
                [(ensure_unique_filepath (allPaths (makedirs w (pathJoin MEDIA_ROOT relDir)))
                    (pathJoin (pathJoin MEDIA_ROOT relDir) nf),
                  (sizeOfPath (makedirs w (pathJoin MEDIA_ROOT relDir)) old_path).getD 0)] }
            oldDir o,
          doc2, none, 1, 1, 1⟩ : RelocResult)
      else
        ⟨cleanupOldDirs
            { makedirs w (pathJoin MEDIA_ROOT relDir) with
              files := ((makedirs w (pathJoin MEDIA_ROOT relDir)).files.filter
                  (fun e : String × Nat => e.1 ≠ old_path)) ++
                [(ensure_unique_filepath (allPaths (makedirs w (pathJoin MEDIA_ROOT relDir)))
                    (pathJoin (pathJoin MEDIA_ROOT relDir) nf),
                  (sizeOfPath (makedirs w (pathJoin MEDIA_ROOT relDir)) old_path).getD 0)] }
            oldDir o,
          doc2,
          some (relDir ++ "/" ++ basename (ensure_unique_filepath
            (allPaths (makedirs w (pathJoin MEDIA_ROOT relDir)))
            (pathJoin (pathJoin MEDIA_ROOT relDir) nf))),
          0, 1, 1⟩).doc.file_size = doc.file_size := by
  have hfree : ensure_unique_filepath (allPaths (makedirs w (pathJoin MEDIA_ROOT relDir)))
      (pathJoin (pathJoin MEDIA_ROOT relDir) nf)
      ∉ allPaths (makedirs w (pathJoin MEDIA_ROOT relDir)) :=
    ensure_unique_not_mem _ _
  have hdfp := docFilePath_new_relative
    (allPaths (makedirs w (pathJoin MEDIA_ROOT relDir))) relDir nf hrdh hrdne hrdl hnf hnfne
  have hsize := sizeOfPath_after_move (makedirs w (pathJoin MEDIA_ROOT relDir)) old_path
    (ensure_unique_filepath (allPaths (makedirs w (pathJoin MEDIA_ROOT relDir)))
      (pathJoin (pathJoin MEDIA_ROOT relDir) nf))
    ((sizeOfPath (makedirs w (pathJoin MEDIA_ROOT relDir)) old_path).getD 0) oldDir o hfree
  have hw1 : sizeOfPath (makedirs w (pathJoin MEDIA_ROOT relDir)) old_path
      = some doc.file_size := by
    rw [sizeOfPath_congr _ w _ (makedirs_files w _)]
    exact hsz
  rw [Doc.save_file_some _ doc now _ _ _ hdfp hsize]
  dsimp only
  split <;> simp [hw1]

/-- Relocation preserves `file_size` whenever the stored size agrees with the
physical file (the invariant `Document.save` maintains). -/
theorem relocate_file_size (w : World) (doc : Doc) (now : DateTime) (o : Oracle)
    (hsync : ∀ nm, doc.file = some nm → existsPath w (docFilePath nm) = true →
      sizeOfPath w (docFilePath nm) = some doc.file_size) :
    (relocate_document_file w doc now o).doc.file_size = doc.file_size := by
  unfold relocate_document_file
  cases hfile : doc.file with
  | none => rfl
  | some nm =>
    dsimp only
    by_cases hex : existsPath w (docFilePath nm) = true
    · rw [if_neg (fun hc => hc hex)]
      cases hyf : DateFormat.get_folder_path doc.document_date with
      | none => rfl
      | some yf =>
        dsimp only
        by_cases hmk : o.mkdirFail = true
        · rw [if_pos hmk]
        · rw [if_neg hmk]
          have hmf := get_folder_path_facts doc.document_date yf hyf
          have hrd := relDir_facts doc.category.get_full_path yf.1 yf.2 hmf.1 hmf.2
          split
          · split
            · split
              · rfl
              · refine save_moved_file_size w doc now o _ _ _ _ hrd.2.1 hrd.1 hrd.2.2 ?_ ?_
                  (hsync nm hfile hex)
                · split
                  · exact (generate_spd_filename_facts doc _).1
                  · exact (spd_fallback_filename_facts doc).1
                · split
                  · exact (generate_spd_filename_facts doc _).2
                  · exact (spd_fallback_filename_facts doc).2
            · rfl
          · split
            · split
              · rfl
              · exact save_moved_file_size w doc now o _ _ _ _ hrd.2.1 hrd.1 hrd.2.2
                  (generate_document_filename_facts doc).1
                  (generate_document_filename_facts doc).2 (hsync nm hfile hex)
            · rfl
    · rw [if_pos (fun hc => hex hc)]

/-- Relocation either leaves the stored file name alone or completed a move. -/
theorem relocate_file_or_moved (w : World) (doc : Doc) (now : DateTime) (o : Oracle) :
    (relocate_document_file w doc now o).doc.file = doc.file ∨
      (relocate_document_file w doc now o).movesDone = 1 := by
  obtain ⟨-, -, -, -, -, -, -, -, -, -, -, -, -, h14, -⟩ := relocate_master w doc now o
  exact h14

/-- Relocation keeps `updated_at` current when it already was. -/
theorem relocate_updated_at (w : World) (doc : Doc) (now : DateTime) (o : Oracle)
    (h : doc.updated_at = now) :
    (relocate_document_file w doc now o).doc.updated_at = now := by
  obtain ⟨-, -, -, -, -, -, -, -, -, -, -, -, -, -, h15⟩ := relocate_master w doc now o
  rcases h15 with h' | h'
  · exact h'.trans h
  · exact h'

/-! ### C9: the update frame -/

/-- C9 counterexample: `update_document` does not leave `file_size` alone —
`document.save()` rewrites it from storage. A document whose recorded size
(5) disagrees with its physical file (9 bytes on disk) comes back from a
metadata-only update with `file_size = 9`. -/
theorem update_document_file_size_counterexample :
    (⟨3, some "uploads/atk/2024/01-Januari/a.pdf", 5, ⟨2024, 1, 15⟩, Category.root "ATK" "atk",
        1, ⟨2024, 1, 1, 0, 0, 0⟩, ⟨2024, 1, 1, 0, 0, 0⟩, 1, false, none, none⟩ : Doc).file_size
      = 5 ∧
    (DocumentService.update_document
        ⟨[("/media/uploads/atk/2024/01-Januari/a.pdf", 9)], ["/media"]⟩
        ⟨3, some "uploads/atk/2024/01-Januari/a.pdf", 5, ⟨2024, 1, 15⟩, Category.root "ATK" "atk",
          1, ⟨2024, 1, 1, 0, 0, 0⟩, ⟨2024, 1, 1, 0, 0, 0⟩, 1, false, none, none⟩
        (Category.root "ATK" "atk") ⟨2024, 1, 15⟩ 1 ⟨2024, 3, 1, 0, 0, 0⟩
        ⟨false, false, false, false⟩).raised = false ∧
    (DocumentService.update_document
        ⟨[("/media/uploads/atk/2024/01-Januari/a.pdf", 9)], ["/media"]⟩
        ⟨3, some "uploads/atk/2024/01-Januari/a.pdf", 5, ⟨2024, 1, 15⟩, Category.root "ATK" "atk",
          1, ⟨2024, 1, 1, 0, 0, 0⟩, ⟨2024, 1, 1, 0, 0, 0⟩, 1, false, none, none⟩
        (Category.root "ATK" "atk") ⟨2024, 1, 15⟩ 1 ⟨2024, 3, 1, 0, 0, 0⟩
        ⟨false, false, false, false⟩).doc.file_size = 9 :=
  ⟨rfl, by decide, by decide⟩

/-- C9 (amended): when `DocumentService.update_document` completes without
raising, it increments `version` by exactly one, sets the new `category` and
`document_date`, refreshes `updated_at`, touches the stored file name only
when a move actually completed, writes one activity row, leaves `id`,
`created_by`, `created_at`, `is_deleted`, `deleted_at` and the SPD link
unchanged, and re-reads `file_size` from storage: for a document with no file
it is unchanged, for a stored file it ends up equal to the physical file's
size (hence unchanged exactly when they already agreed). The update raises —
rolling the transaction back with the filesystem untouched and nothing
logged — precisely when the stored file is missing from storage. -/
theorem update_document_frame_amended (w : World) (doc : Doc) (category : Category)
    (document_date : Date) (user : Nat) (now : DateTime) (o : Oracle) :
    ((DocumentService.update_document w doc category document_date user now o).raised = false →
      (DocumentService.update_document w doc category document_date user now o).doc.version
          = doc.version + 1 ∧
      (DocumentService.update_document w doc category document_date user now o).doc.category
          = category ∧
      (DocumentService.update_document w doc category document_date user now o).doc.document_date
          = document_date ∧
      (DocumentService.update_document w doc category document_date user now o).doc.updated_at
          = now ∧
      ((DocumentService.update_document w doc category document_date user now o).doc.file
          = doc.file ∨
        (DocumentService.update_document w doc category document_date user now o).relocMovesDone
          = 1) ∧
      (doc.file = none →
        (DocumentService.update_document w doc category document_date user now o).doc.file_size
          = doc.file_size) ∧
      (∀ nm, doc.file = some nm →
        sizeOfPath w (docFilePath nm) = some
          (DocumentService.update_document w doc category document_date user now o).doc.file_size) ∧
      (DocumentService.update_document w doc category document_date user now o).activityLogs
          = 1 ∧
      (DocumentService.update_document w doc category document_date user now o).doc.id = doc.id ∧
      (DocumentService.update_document w doc category document_date user now o).doc.created_by
          = doc.created_by ∧
      (DocumentService.update_document w doc category document_date user now o).doc.created_at
          = doc.created_at ∧
      (DocumentService.update_document w doc category document_date user now o).doc.is_deleted
          = doc.is_deleted ∧
      (DocumentService.update_document w doc category document_date user now o).doc.deleted_at
          = doc.deleted_at ∧
      (DocumentService.update_document w doc category document_date user now o).doc.spd_info
          = doc.spd_info) ∧
    ((DocumentService.update_document w doc category document_date user now o).raised = true ↔
      ∃ nm, doc.file = some nm ∧ sizeOfPath w (docFilePath nm) = none) ∧
    ((DocumentService.update_document w doc category document_date user now o).raised = true →
      (DocumentService.update_document w doc category document_date user now o).world = w ∧
      (DocumentService.update_document w doc category document_date user now o).activityLogs
        = 0) := by
  unfold DocumentService.update_document
  dsimp only
  cases hS : Doc.save w
    { doc with
      category := category
      document_date := document_date
      version := doc.version + 1 } now with
  | none =>
    dsimp only
    obtain ⟨nm, hnm, hszn⟩ := Doc.save_none_inv _ _ _ hS
    have hnm2 : doc.file = some nm := by simpa using hnm
    exact ⟨fun h => Bool.noConfusion h,
      ⟨fun _ => ⟨nm, hnm2, hszn⟩, fun _ => rfl⟩,
      fun _ => ⟨rfl, rfl⟩⟩
  | some d2 =>
    dsimp only
    obtain ⟨fs, hd2⟩ := Doc.save_spec _ _ _ _ hS
    refine ⟨fun _ => ?_, ⟨fun h => Bool.noConfusion h, fun hex => ?_⟩,
      fun h => Bool.noConfusion h⟩
    · have hfD1 : ∀ v : Option String, doc.file = v →
          ({ doc with
              category := category
              document_date := document_date
              version := doc.version + 1 } : Doc).file = v := fun v hv => hv
      have hfile2 : d2.file = doc.file := by rw [hd2]
      have hupd2 : d2.updated_at = now := by rw [hd2]
      obtain ⟨-, -, -, -, m5, m6, m7, m8, m9, m10, m11, m12, m13, m14, m15⟩ :=
        relocate_master w d2 now o
      have hupd : (relocate_document_file w d2 now o).doc.updated_at = now := by
        rcases m15 with h1 | h1
        · exact h1.trans hupd2
        · exact h1
      refine ⟨m6.trans (by rw [hd2]), m7.trans (by rw [hd2]), m8.trans (by rw [hd2]), hupd,
        m14.imp (fun h => h.trans hfile2) id, ?_, ?_, rfl,
        m5.trans (by rw [hd2]), m9.trans (by rw [hd2]), m10.trans (by rw [hd2]),
        m11.trans (by rw [hd2]), m12.trans (by rw [hd2]), m13.trans (by rw [hd2])⟩
      · intro hnone
        have h0 := relocate_none_of_no_file w d2 now o (hfile2.trans hnone)
        rw [h0]
        have h1 := (Doc.save_none_file w _ now (hfD1 _ hnone)).symm.trans hS
        injection h1 with h2
        rw [← h2]
      · intro nm hnm
        have hd2f : d2.file = some nm := hfile2.trans hnm
        cases hszc : sizeOfPath w (docFilePath nm) with
        | none =>
          have hr := Doc.save_raises w _ now nm (hfD1 _ hnm) hszc
          rw [hr] at hS
          exact Option.noConfusion hS
        | some sz =>
          have hseq := (Doc.save_some_size w _ now nm sz (hfD1 _ hnm) hszc).symm.trans hS
          injection hseq with h2
          have hd2fs : d2.file_size = sz := by rw [← h2]
          have hsync2 : ∀ nm2, d2.file = some nm2 → existsPath w (docFilePath nm2) = true →
              sizeOfPath w (docFilePath nm2) = some d2.file_size := by
            intro nm2 hnm2 hex2
            have hnn : nm2 = nm := by
              rw [hd2f] at hnm2
              injection hnm2 with h3
              exact h3.symm
            subst hnn
            rw [hd2fs]
            exact hszc
          rw [relocate_file_size w d2 now o hsync2, hd2fs]
    · obtain ⟨nm, hnm, hszn⟩ := hex
      have hr := Doc.save_raises w
        { doc with
          category := category
          document_date := document_date
          version := doc.version + 1 } now nm hnm hszn
      rw [hr] at hS
      exact Option.noConfusion hS

/-- C9 witness: a concrete in-sync document whose category changes; the
update completes, bumps the version from 1 to 2 and keeps the 9-byte file
size. -/
theorem update_document_frame_amended_witness :
    (DocumentService.update_document
        ⟨[("/media/uploads/atk/2024/01-Januari/a.pdf", 9)], ["/media"]⟩
        ⟨3, some "uploads/atk/2024/01-Januari/a.pdf", 9, ⟨2024, 1, 15⟩, Category.root "ATK" "atk",
          1, ⟨2024, 1, 1, 0, 0, 0⟩, ⟨2024, 1, 1, 0, 0, 0⟩, 1, false, none, none⟩
        (Category.root "Umum" "umum") ⟨2024, 2, 10⟩ 1 ⟨2024, 3, 1, 0, 0, 0⟩
        ⟨false, false, false, false⟩).raised = false ∧
    (DocumentService.update_document
        ⟨[("/media/uploads/atk/2024/01-Januari/a.pdf", 9)], ["/media"]⟩
        ⟨3, some "uploads/atk/2024/01-Januari/a.pdf", 9, ⟨2024, 1, 15⟩, Category.root "ATK" "atk",
          1, ⟨2024, 1, 1, 0, 0, 0⟩, ⟨2024, 1, 1, 0, 0, 0⟩, 1, false, none, none⟩
        (Category.root "Umum" "umum") ⟨2024, 2, 10⟩ 1 ⟨2024, 3, 1, 0, 0, 0⟩
        ⟨false, false, false, false⟩).doc.version = 2 ∧
    (DocumentService.update_document
        ⟨[("/media/uploads/atk/2024/01-Januari/a.pdf", 9)], ["/media"]⟩
        ⟨3, some "uploads/atk/2024/01-Januari/a.pdf", 9, ⟨2024, 1, 15⟩, Category.root "ATK" "atk",
          1, ⟨2024, 1, 1, 0, 0, 0⟩, ⟨2024, 1, 1, 0, 0, 0⟩, 1, false, none, none⟩
        (Category.root "Umum" "umum") ⟨2024, 2, 10⟩ 1 ⟨2024, 3, 1, 0, 0, 0⟩
        ⟨false, false, false, false⟩).doc.file_size = 9 := by
  have hr : (DocumentService.update_document
      ⟨[("/media/uploads/atk/2024/01-Januari/a.pdf", 9)], ["/media"]⟩
      ⟨3, some "uploads/atk/2024/01-Januari/a.pdf", 9, ⟨2024, 1, 15⟩, Category.root "ATK" "atk",
        1, ⟨2024, 1, 1, 0, 0, 0⟩, ⟨2024, 1, 1, 0, 0, 0⟩, 1, false, none, none⟩
      (Category.root "Umum" "umum") ⟨2024, 2, 10⟩ 1 ⟨2024, 3, 1, 0, 0, 0⟩
      ⟨false, false, false, false⟩).raised = false := by decide
  have h := (update_document_frame_amended
      ⟨[("/media/uploads/atk/2024/01-Januari/a.pdf", 9)], ["/media"]⟩
      ⟨3, some "uploads/atk/2024/01-Januari/a.pdf", 9, ⟨2024, 1, 15⟩, Category.root "ATK" "atk",
        1, ⟨2024, 1, 1, 0, 0, 0⟩, ⟨2024, 1, 1, 0, 0, 0⟩, 1, false, none, none⟩
      (Category.root "Umum" "umum") ⟨2024, 2, 10⟩ 1 ⟨2024, 3, 1, 0, 0, 0⟩
      ⟨false, false, false, false⟩).1 hr
  refine ⟨hr, h.1, ?_⟩
  have h9 := h.2.2.2.2.2.2.1 "uploads/atk/2024/01-Januari/a.pdf" rfl
  have hval : sizeOfPath
      (⟨[("/media/uploads/atk/2024/01-Januari/a.pdf", 9)], ["/media"]⟩ : World)
      (docFilePath "uploads/atk/2024/01-Januari/a.pdf") = some 9 := by decide
  exact Option.some.inj (h9.symm.trans hval)

end Archive
